import Mathlib

/-!
# Verification of `cleanup_engine.py` (mirukibs/downloads_cleanup)

Shallow embedding of the downloads-cleanup routing engine.  Paths are
modelled as lists of components (`List String`); rendering a path to a
string joins the components with `"/"`, matching `str(Path(...))` for
already-normalized inputs.  The filesystem is a record of existing plain
files and existing directories.  Python string operations are modelled on
the underlying `List Char` so that everything is executable and
kernel-reducible.  The content-sniffing MIME detector (`python-magic` /
`mimetypes`) is an external effect and is passed in as an oracle
`detect : List String → String`; the current calendar date is passed in as
the string `today`.  Home-directory / environment-variable expansion in
`expand_path` reads ambient process state; paths in scope are taken to be
already expanded, so that step is the identity here, while the
forbidden-pattern check (the part the engine's behaviour depends on) is
modelled exactly.
-/

deriving instance DecidableEq for Except

namespace Cleanup

/-- Does the second char list start with the first one?  (Model of Python
`str.startswith` on the character sequence.) -/
def startsList : List Char → List Char → Bool
  | [], _ => true
  | _ :: _, [] => false
  | a :: n, b :: h => a == b && startsList n h

/-- Is the first char list a contiguous substring of the second?  (Model of
Python's `needle in haystack` on strings.) -/
def subOf (n : List Char) : List Char → Bool
  | [] => startsList n []
  | b :: h => startsList n (b :: h) || subOf n h

/-- Model of Python `str.lower()` (ASCII case folding, as used by the
engine on filenames and rule keys). -/
def lowerStr (s : String) : String := ⟨s.data.map Char.toLower⟩

/-- Model of Python `haystack.startswith(needle)`. -/
def strStarts (s pre : String) : Bool := startsList pre.data s.data

/-- Index (0-based, in characters) of the last `'.'` in the list, if any:
model of Python `str.rfind('.')` restricted to a found result. -/
def lastDotIdx : List Char → Option Nat
  | [] => none
  | c :: rest =>
    match lastDotIdx rest with
    | some i => some (i + 1)
    | none => if c == '.' then some 0 else none

/-- Model of `PurePath(name).suffix`: the extension including the leading
dot, or `""` when the last dot is absent, leading or trailing. -/
def pySuffix (name : String) : String :=
  match lastDotIdx name.data with
  | some i =>
    if 0 < i ∧ i < name.data.length - 1 then ⟨name.data.drop i⟩ else ""
  | none => ""

/-- Model of `PurePath(name).stem`: the filename without `pySuffix`. -/
def pyStem (name : String) : String :=
  match lastDotIdx name.data with
  | some i =>
    if 0 < i ∧ i < name.data.length - 1 then ⟨name.data.take i⟩ else name
  | none => name

/-- Model of Python `s.lstrip(".")`: drop all leading dots. -/
def stripDots (s : String) : String := ⟨s.data.dropWhile (· == '.')⟩

/-- Decimal digit as a character. -/
def digitCh (d : Nat) : Char := Char.ofNat (48 + d)

/-- Little-endian decimal digits of `n`; `fuel` is a structural bound on
the recursion depth (any `fuel ≥ n` gives the exact digits, see
`natDigitsRev_eq_digits`). -/
def natDigitsRev : Nat → Nat → List Nat
  | 0, _ => []
  | fuel + 1, n => if n = 0 then [] else n % 10 :: natDigitsRev fuel (n / 10)

/-- Decimal rendering of a natural number (model of Python `str(int)` for
the collision counter). -/
def natStr (n : Nat) : String :=
  if n = 0 then "0" else ⟨((natDigitsRev n n).reverse.map digitCh)⟩

/-- Split a raw path string into components at `'/'` (inverse of
`pathStr`; `str(Path(s))` for normalized `s`). -/
def splitComp (cur : List Char) : List Char → List String
  | [] => [⟨cur.reverse⟩]
  | c :: rest => if c == '/' then ⟨cur.reverse⟩ :: splitComp [] rest
                 else splitComp (c :: cur) rest

/-- Parse a path string into its component list. -/
def splitPath (s : String) : List String := splitComp [] s.data

/-- Render a path (component list) back to a string, joining with `"/"`. -/
def pathStr : List String → String
  | [] => ""
  | [c] => c
  | c :: rest => c ++ "/" ++ pathStr rest

/-- Lexicographic `≤` on char lists by code point (Python string order, as
used by `sorted(..., key=...)`). -/
def lexLe : List Char → List Char → Bool
  | [], _ => true
  | _ :: _, [] => false
  | a :: x, b :: y => a < b || (a == b && lexLe x y)

/-- Insert into a list sorted by the boolean key `le` (stable). -/
def insertBy (le : α → α → Bool) (x : α) : List α → List α
  | [] => [x]
  | y :: ys => if le x y then x :: y :: ys else y :: insertBy le x ys

/-- Stable insertion sort by the boolean key `le` (model of Python's
stable `sorted`). -/
def sortBy (le : α → α → Bool) : List α → List α
  | [] => []
  | x :: xs => insertBy le x (sortBy le xs)

/-- A filesystem path: list of components.  `["", "home", "u"]` renders as
`"/home/u"`. -/
abbrev FsPath := List String

/-- The filesystem state: the existing plain files and the existing
directories.  (Symbolic links are out of the model; `discover_files`
treats link-to-file like a file and link-to-dir like a dir, which this
model subsumes.) -/
structure FS where
  files : List FsPath
  dirs : List FsPath
deriving Repr, DecidableEq

/-- Model of `Path.exists()`: the path names an existing file or
directory. -/
def FS.existsPath (fs : FS) (p : FsPath) : Bool :=
  fs.files.contains p || fs.dirs.contains p

/-- All nonempty component-prefixes of a path (the chain of directories
`mkdir(parents=True)` brings into existence). -/
def ancestors (p : FsPath) : List FsPath :=
  (List.range p.length).map (fun i => p.take (i + 1))

/-- Model of `path.mkdir(parents=True, exist_ok=True)`. -/
def FS.mkdirParents (fs : FS) (p : FsPath) : FS :=
  { fs with dirs := ancestors p ++ fs.dirs }

/-- Model of `os.replace(src, dst)` on files: `src` disappears, `dst`
exists (replaced if it was there). -/
def FS.replaceFile (fs : FS) (src dst : FsPath) : FS :=
  { fs with files := dst :: fs.files.filter (fun q => ¬ (q = src ∨ q = dst)) }

/-- Is `p` a direct child of directory `d`?  (`p = d / name`.) -/
def directChild (d p : FsPath) : Bool :=
  p.length = d.length + 1 && decide (p.take d.length = d)

/-- The final component of a path (`Path.name`). -/
def pathName (p : FsPath) : String := p.getLastD ""

/-- Model of `discover_files`: the plain files directly inside
`downloads`, skipping hidden names (leading `.`), sorted by lowercased
name; `[]` when `downloads` itself does not exist. -/
def discover_files (fs : FS) (downloads : FsPath) : List FsPath :=
  if fs.existsPath downloads then
    sortBy (fun a b => lexLe (lowerStr (pathName a)).data (lowerStr (pathName b)).data)
      (fs.files.filter
        (fun p => directChild downloads p && ¬ strStarts (pathName p) "."))
  else []

/-- A keyword rule: the JSON object value of `keyword_map`; `rule.get("target")`
yields `none` when the `target` field is missing. -/
structure KeywordRule where
  target : Option String
deriving Repr, DecidableEq

/-- The run configuration, as read from `config["paths"]` and
`config["routing"]` (ordered maps become association lists). -/
structure Config where
  downloads : String
  archive_base : String
  keyword_map : List (String × KeywordRule)
  extension_map : List (String × String)
  mime_map : List (String × String)
deriving Repr, DecidableEq

/-- The substrings `expand_path` rejects. -/
def forbiddenPatterns : List String := ["$(", "`", ";", "|", "&"]

/-- Model of `expand_path`: reject forbidden shell-like substrings, then
expand (identity for already-expanded paths in scope) and parse into
components. -/
def expand_path (raw : String) : Except String FsPath :=
  if forbiddenPatterns.any (fun pat => subOf pat.data raw.data) then
    Except.error ("Forbidden shell-like expression detected in path: " ++ raw)
  else Except.ok (splitPath raw)

/-- `expand_path` applied to `rule.get("target")`: passing Python `None`
raises `ValueError("Invalid path type (expected string): None")`. -/
def expandPathOpt : Option String → Except String FsPath
  | none => Except.error "Invalid path type (expected string): None"
  | some s => expand_path s

/-- First binding of `k` in the association list (Python `dict.get`). -/
def assocGet (m : List (String × α)) (k : String) : Option α :=
  (m.find? (fun kv => kv.1 == k)).map (·.2)

/-- `dict.get` followed by Python truthiness: a present but empty-string
value behaves like an absent key under `if target:`. -/
def assocGetTruthy (m : List (String × String)) (k : String) : Option String :=
  match assocGet m k with
  | some v => if v = "" then none else some v
  | none => none

/-- Model of `match_keyword`: first (in insertion order) key whose
lowercased text is a substring of the lowercased filename; yields the key
together with `rule.get("target")`. -/
def match_keyword (filename : String) : List (String × KeywordRule) →
    Option (String × Option String)
  | [] => none
  | (key, rule) :: rest =>
    if subOf (lowerStr key).data (lowerStr filename).data then
      some (key, rule.target)
    else match_keyword filename rest

/-- Model of `match_extension`: lowercased extension without the dot; a
hit requires a truthy (non-empty) target. -/
def match_extension (filename : String) (extension_map : List (String × String)) :
    Option (String × String) :=
  let sfx := stripDots (lowerStr (pySuffix filename))
  if sfx = "" then none
  else
    match assocGetTruthy extension_map sfx with
    | some t => some (sfx, t)
    | none => none

/-- Model of `match_mime`: exact truthy hit on the full MIME string first,
then a truthy hit on the primary category (text before the first `/`). -/
def match_mime (mimeStr : String) (mime_map : List (String × String)) :
    Option (String × String) :=
  if mimeStr = "" then none
  else
    match assocGetTruthy mime_map mimeStr with
    | some t => some (mimeStr, t)
    | none =>
      let primary : String := ⟨mimeStr.data.takeWhile (· ≠ '/')⟩
      match assocGetTruthy mime_map primary with
      | some t => some (primary, t)
      | none => none

/-- The candidate filename `f"{stem} ({counter}){suffix}"` probed by the
collision loop. -/
def candName (stem sfx : String) (c : Nat) : String :=
  stem ++ " (" ++ natStr c ++ ")" ++ sfx

/-- The candidate path probed by the collision loop at counter `c`. -/
def candPath (destDir : FsPath) (stem sfx : String) (c : Nat) : FsPath :=
  destDir ++ [candName stem sfx c]

/-- The probing loop of `make_collision_safe_target` (`while True` with an
increasing counter).  The loop terminates because the candidate paths are
pairwise distinct while the filesystem holds finitely many entries; `fuel`
is a structural bound later proven never to run out when it starts at one
more than the number of filesystem entries (`probeLoop_none_not_taken`). -/
def probeLoop (fs : FS) (destDir : FsPath) (stem sfx : String) :
    Nat → Nat → FsPath
  | c, 0 => candPath destDir stem sfx c
  | c, fuel + 1 =>
    if fs.existsPath (candPath destDir stem sfx c) then
      probeLoop fs destDir stem sfx (c + 1) fuel
    else candPath destDir stem sfx c

/-- Model of `make_collision_safe_target`: `destination_dir/filename` when
free, else the first `stem (n)suffix` (n = 1, 2, …) that does not exist. -/
def make_collision_safe_target (fs : FS) (destination_dir : FsPath)
    (filename : String) : FsPath :=
  let destination := destination_dir ++ [filename]
  if fs.existsPath destination then
    probeLoop fs destination_dir (pyStem filename) (pySuffix filename) 1
      (fs.files.length + fs.dirs.length + 1)
  else destination

/-- Model of `do_move`: create the destination's parent chain, then move
the file (the atomic `os.replace` and the `shutil.move` fallback coincide
in the model); returns the final destination. -/
def do_move (fs : FS) (src destination : FsPath) : FS × FsPath :=
  let fs1 := fs.mkdirParents destination.dropLast
  (fs1.replaceFile src destination, destination)

/-- One recorded action: `(stage, rule, src, dest)`; for the `"error"`
stage `rule` is `none` and `dest` carries the exception message. -/
structure Action where
  stage : String
  rule : Option String
  src : String
  dest : String
deriving Repr, DecidableEq

/-- The extension / mime / archive-fallback part of the per-file
classification (steps 2–4 of `process_run`'s body, reached when the
keyword step did not fire).  The engine guards the content-type step with
`if mime_match:`, so a returned empty mime key (possible when the
detected string starts with `/` and the mime map holds an empty key) is
falsy and the file falls through to the archive fallback. -/
def classifyNoKw (extMap mimeMap : List (String × String))
    (detect : FsPath → String) (archiveBase : FsPath) (today : String)
    (fs : FS) (file : FsPath) : Except String (String × String × FsPath) :=
  let filename := pathName file
  match match_extension filename extMap with
  | some (ext, tgt) =>
    match expand_path tgt with
    | Except.error e => Except.error e
    | Except.ok destDir =>
      Except.ok ("extension", ext, make_collision_safe_target fs destDir filename)
  | none =>
    match match_mime (detect file) mimeMap with
    | some (mk, tgt) =>
      if mk ≠ "" then
        match expand_path tgt with
        | Except.error e => Except.error e
        | Except.ok destDir =>
          Except.ok ("mime", mk, make_collision_safe_target fs destDir filename)
      else
        Except.ok ("archive", "archive_fallback",
          make_collision_safe_target fs (archiveBase ++ [today]) filename)
    | none =>
      Except.ok ("archive", "archive_fallback",
        make_collision_safe_target fs (archiveBase ++ [today]) filename)

/-- The classification stage of `process_run`'s per-file body: which rule
fires (fixed precedence keyword > extension > mime > archive fallback) and
the computed collision-safe destination.  Errors are the exceptions
`expand_path` can raise on a rule target (missing `target` field,
forbidden pattern).  An empty keyword key is returned by `match_keyword`
but fails Python's `if keyword_key:` truthiness test, so it falls through
to the later steps. -/
def classifyFile (kwMap : List (String × KeywordRule))
    (extMap mimeMap : List (String × String)) (detect : FsPath → String)
    (archiveBase : FsPath) (today : String) (fs : FS) (file : FsPath) :
    Except String (String × String × FsPath) :=
  let filename := pathName file
  match match_keyword filename kwMap with
  | some (key, tgt) =>
    if key ≠ "" then
      match expandPathOpt tgt with
      | Except.error e => Except.error e
      | Except.ok destDir =>
        Except.ok ("keyword", key, make_collision_safe_target fs destDir filename)
    else classifyNoKw extMap mimeMap detect archiveBase today fs file
  | none => classifyNoKw extMap mimeMap detect archiveBase today fs file

/-- The execute-or-plan stage of `process_run`'s per-file body.  Dry run
records the planned action untouched; execute mode creates a missing
destination parent only when its rendered path starts with the archive
base's rendered path, raising `RuntimeError` otherwise, then moves the
file. -/
def finishFile (archiveBase : FsPath) (dryRun : Bool) (fs : FS)
    (stage rule : String) (file destination : FsPath) :
    Except String (FS × Action) :=
  if dryRun then
    Except.ok (fs, ⟨stage, some rule, pathStr file, pathStr destination⟩)
  else
    let parent := destination.dropLast
    if fs.existsPath parent then
      let (fs2, finalDest) := do_move fs file destination
      Except.ok (fs2, ⟨stage, some rule, pathStr file, pathStr finalDest⟩)
    else if strStarts (pathStr parent) (pathStr archiveBase) then
      let fs1 := fs.mkdirParents parent
      let (fs2, finalDest) := do_move fs1 file destination
      Except.ok (fs2, ⟨stage, some rule, pathStr file, pathStr finalDest⟩)
    else
      Except.error
        ("Destination parent does not exist for non-archive target: " ++
          pathStr parent)

/-- Per-file counter deltas and outcome: the body of `process_run`'s
`for`-loop including its `except` clause.  Counter increments that
happened before an exception are kept, exactly as in the mutable-counter
code. -/
structure StepResult where
  kw : Nat
  ext : Nat
  mime : Nat
  arch : Nat
  err : Nat
  fs : FS
  action : Action
deriving Repr, DecidableEq

/-- The one-hot classification delta for a stage string. -/
def deltaFor (stage : String) : Nat × Nat × Nat × Nat :=
  (if stage = "keyword" then 1 else 0,
   if stage = "extension" then 1 else 0,
   if stage = "mime" then 1 else 0,
   if stage = "archive" then 1 else 0)

/-- The error action `("error", None, str(file), str(e))`. -/
def errorAction (file : FsPath) (msg : String) : Action :=
  ⟨"error", none, pathStr file, msg⟩

/-- Process one candidate file: classify, then execute or plan, catching
any exception at the per-file boundary. -/
def processOne (kwMap : List (String × KeywordRule))
    (extMap mimeMap : List (String × String)) (detect : FsPath → String)
    (archiveBase : FsPath) (today : String) (dryRun : Bool) (fs : FS)
    (file : FsPath) : StepResult :=
  match classifyFile kwMap extMap mimeMap detect archiveBase today fs file with
  | Except.error e =>
    ⟨0, 0, 0, 0, 1, fs, errorAction file e⟩
  | Except.ok (stage, rule, destination) =>
    let (dk, de, dm, da) := deltaFor stage
    match finishFile archiveBase dryRun fs stage rule file destination with
    | Except.ok (fs2, action) => ⟨dk, de, dm, da, 0, fs2, action⟩
    | Except.error e => ⟨dk, de, dm, da, 1, fs, errorAction file e⟩

/-- Aggregate counters of a run (`counts` dict). -/
structure Counts where
  scanned : Nat
  keyword : Nat
  extension : Nat
  mime : Nat
  archived : Nat
  errors : Nat
deriving Repr, DecidableEq

/-- The run summary: counters, ordered action list, and the final
filesystem state (implicit in the Python, explicit here). -/
structure Summary where
  counts : Counts
  actions : List Action
  fs : FS
deriving Repr, DecidableEq

/-- The `for file in files:` loop of `process_run`: threads the
filesystem left to right, accumulating counter deltas and the ordered
action list. -/
def runFiles (kwMap : List (String × KeywordRule))
    (extMap mimeMap : List (String × String)) (detect : FsPath → String)
    (archiveBase : FsPath) (today : String) (dryRun : Bool) :
    List FsPath → FS → Counts × List Action × FS
  | [], fs => (⟨0, 0, 0, 0, 0, 0⟩, [], fs)
  | f :: rest, fs =>
    let r := processOne kwMap extMap mimeMap detect archiveBase today dryRun fs f
    let (c, acts, fsEnd) :=
      runFiles kwMap extMap mimeMap detect archiveBase today dryRun rest r.fs
    (⟨c.scanned, c.keyword + r.kw, c.extension + r.ext, c.mime + r.mime,
      c.archived + r.arch, c.errors + r.err⟩, r.action :: acts, fsEnd)

/-- Model of `process_run`: expand the configured paths, discover the
candidate files, process each in order, and return the summary.  `detect`
is the MIME-detection oracle and `today` the current ISO date. -/
def process_run (cfg : Config) (detect : FsPath → String) (today : String)
    (dryRun : Bool) (fs : FS) : Except String Summary := do
  let downloads ← expand_path cfg.downloads
  let archiveBase ← expand_path cfg.archive_base
  let files := discover_files fs downloads
  let (c, acts, fsEnd) :=
    runFiles cfg.keyword_map cfg.extension_map cfg.mime_map detect archiveBase
      today dryRun files fs
  Except.ok ⟨⟨files.length, c.keyword, c.extension, c.mime, c.archived, c.errors⟩,
    acts, fsEnd⟩

/-- Modelled from the spec: "the destination lives under the archive
root", read as proper path containment — the archive base's component
list is an initial segment of the parent's component list.  This is the
spec's recommended containment check, stated for comparison with the
code's textual `startswith` test. -/
def underDir (base p : FsPath) : Bool :=
  decide (p.take base.length = base)

/-- Does the keyword step fire for this filename (a match with a truthy,
i.e. non-empty, key)? -/
def kwHit (fn : String) (kwMap : List (String × KeywordRule)) : Bool :=
  match match_keyword fn kwMap with
  | some (k, _) => !(k == "")
  | none => false

/-- Does the extension step fire for this filename? -/
def extHit (fn : String) (extMap : List (String × String)) : Bool :=
  (match_extension fn extMap).isSome

/-- Does the content-type step fire for this detected MIME string (a
match with a truthy, i.e. non-empty, key, mirroring the engine's
`if mime_match:` gate)? -/
def mimeHit (s : String) (mimeMap : List (String × String)) : Bool :=
  match match_mime s mimeMap with
  | some (mk, _) => !(mk == "")
  | none => false

/-! ## Basic lemmas about the string and list helpers -/

theorem natDigitsRev_eq_digits : ∀ fuel n, n ≤ fuel →
    natDigitsRev fuel n = Nat.digits 10 n := by
  intro fuel
  induction fuel with
  | zero =>
    intro n hn
    interval_cases n
    simp [natDigitsRev]
  | succ f ih =>
    intro n hn
    by_cases h0 : n = 0
    · simp [natDigitsRev, h0]
    · have hpos : 0 < n := Nat.pos_of_ne_zero h0
      have hdiv : n / 10 ≤ f := by
        have h1 : n / 10 < n := Nat.div_lt_self hpos (by norm_num)
        omega
      simp only [natDigitsRev, h0, if_false]
      rw [ih _ hdiv, Nat.digits_def' (by norm_num : (1:ℕ) < 10) hpos]

theorem digitCh_inj_lt : ∀ d1 < 10, ∀ d2 < 10, digitCh d1 = digitCh d2 → d1 = d2 := by
  decide

theorem map_digitCh_inj : ∀ l1 l2 : List Nat, (∀ d ∈ l1, d < 10) → (∀ d ∈ l2, d < 10) →
    l1.map digitCh = l2.map digitCh → l1 = l2 := by
  intro l1
  induction l1 with
  | nil =>
    intro l2 _ _ h
    cases l2 with
    | nil => rfl
    | cons b t => simp at h
  | cons a t ih =>
    intro l2 h1 h2 h
    cases l2 with
    | nil => simp at h
    | cons b t2 =>
      simp only [List.map_cons, List.cons.injEq] at h
      have ha : a < 10 := h1 a (by simp)
      have hb : b < 10 := h2 b (by simp)
      have hab : a = b := digitCh_inj_lt a ha b hb h.1
      have ht : t = t2 := ih t2 (fun d hd => h1 d (by simp [hd]))
        (fun d hd => h2 d (by simp [hd])) h.2
      rw [hab, ht]

theorem natStr_inj : ∀ a b : Nat, natStr a = natStr b → a = b := by
  have key : ∀ n : Nat, n ≠ 0 →
      (natStr n).data = (Nat.digits 10 n).reverse.map digitCh := by
    intro n hn
    simp [natStr, hn, natDigitsRev_eq_digits n n (le_refl n)]
  intro a b h
  by_cases ha : a = 0
  · by_cases hb : b = 0
    · rw [ha, hb]
    · exfalso
      have hd : (natStr a).data = (natStr b).data := by rw [h]
      rw [ha] at hd
      rw [key b hb] at hd
      have h0 : (natStr 0).data = ['0'] := by decide
      rw [h0] at hd
      have hdig : (Nat.digits 10 b).reverse = [0] := by
        apply map_digitCh_inj
        · intro d hd2
          simp only [List.mem_reverse] at hd2
          exact Nat.digits_lt_base (by norm_num) hd2
        · intro d hd2
          simp only [List.mem_singleton] at hd2
          omega
        · rw [← hd]
          decide
      have : Nat.digits 10 b = [0] := by
        have := congrArg List.reverse hdig
        simpa using this
      have hb0 : b = Nat.ofDigits 10 (Nat.digits 10 b) := (Nat.ofDigits_digits 10 b).symm
      rw [this] at hb0
      simp [Nat.ofDigits] at hb0
      exact hb hb0
  · by_cases hb : b = 0
    · exfalso
      have hd : (natStr a).data = (natStr b).data := by rw [h]
      rw [hb] at hd
      rw [key a ha] at hd
      have h0 : (natStr 0).data = ['0'] := by decide
      rw [h0] at hd
      have hdig : (Nat.digits 10 a).reverse = [0] := by
        apply map_digitCh_inj
        · intro d hd2
          simp only [List.mem_reverse] at hd2
          exact Nat.digits_lt_base (by norm_num) hd2
        · intro d hd2
          simp only [List.mem_singleton] at hd2
          omega
        · rw [hd]
          decide
      have : Nat.digits 10 a = [0] := by
        have := congrArg List.reverse hdig
        simpa using this
      have ha0 : a = Nat.ofDigits 10 (Nat.digits 10 a) := (Nat.ofDigits_digits 10 a).symm
      rw [this] at ha0
      simp [Nat.ofDigits] at ha0
      exact ha ha0
    · have hd : (natStr a).data = (natStr b).data := by rw [h]
      rw [key a ha, key b hb] at hd
      have hrev : (Nat.digits 10 a).reverse = (Nat.digits 10 b).reverse := by
        apply map_digitCh_inj
        · intro d hd2
          simp only [List.mem_reverse] at hd2
          exact Nat.digits_lt_base (by norm_num) hd2
        · intro d hd2
          simp only [List.mem_reverse] at hd2
          exact Nat.digits_lt_base (by norm_num) hd2
        · exact hd
      exact Nat.digits.injective 10 (List.reverse_inj.mp hrev)

theorem candName_inj (stem sfx : String) : ∀ a b : Nat,
    candName stem sfx a = candName stem sfx b → a = b := by
  intro a b h
  apply natStr_inj
  apply String.ext
  have hd : (candName stem sfx a).data = (candName stem sfx b).data := by rw [h]
  simp only [candName, String.data_append, List.append_assoc] at hd
  have h1 := List.append_cancel_left hd
  have h2 := List.append_cancel_left h1
  have h3 : (natStr a).data ++ (")".data ++ sfx.data) =
      (natStr b).data ++ (")".data ++ sfx.data) := by
    simpa using h2
  have h4 := List.append_cancel_right h3
  exact h4

theorem candPath_inj (destDir : FsPath) (stem sfx : String) :
    Function.Injective (fun c => candPath destDir stem sfx c) := by
  intro a b h
  simp only [candPath] at h
  have h1 := List.append_cancel_left h
  simp only [List.cons.injEq, and_true] at h1
  exact candName_inj stem sfx a b h1

theorem existsPath_iff (fs : FS) (p : FsPath) :
    fs.existsPath p = true ↔ p ∈ fs.files ∨ p ∈ fs.dirs := by
  simp [FS.existsPath, List.elem_iff]

/-- Pigeonhole: among the first `N + 1` probe counters (`N` = number of
filesystem entries) at least one candidate path is free. -/
theorem exists_free_cand (fs : FS) (destDir : FsPath) (stem sfx : String) :
    ∃ j, j < fs.files.length + fs.dirs.length + 1 ∧
      fs.existsPath (candPath destDir stem sfx (1 + j)) = false := by
  by_contra hall
  push_neg at hall
  set N := fs.files.length + fs.dirs.length with hN
  have htaken : ∀ j < N + 1, fs.existsPath (candPath destDir stem sfx (1 + j)) = true := by
    intro j hj
    have := hall j hj
    simpa [Bool.not_eq_false] using this
  set l := (List.range (N + 1)).map (fun j => candPath destDir stem sfx (1 + j)) with hl
  have hnodup : l.Nodup := by
    apply List.Nodup.map
    · intro a b hab
      have := candPath_inj destDir stem sfx hab
      omega
    · exact List.nodup_range _
  have hsub : l ⊆ fs.files ++ fs.dirs := by
    intro p hp
    simp only [hl, List.mem_map, List.mem_range] at hp
    obtain ⟨j, hj, rfl⟩ := hp
    have := (existsPath_iff fs _).mp (htaken j hj)
    simpa [List.mem_append] using this
  have hlen : l.length ≤ (fs.files ++ fs.dirs).length :=
    List.Subperm.length_le (List.Nodup.subperm hnodup hsub)
  simp only [hl, List.length_map, List.length_range, List.length_append] at hlen
  omega

/-- Soundness of the probe loop: when some counter within `fuel` steps of
`start` is free, the loop returns the candidate at the least free counter
at or after `start`. -/
theorem probeLoop_sound (fs : FS) (destDir : FsPath) (stem sfx : String) :
    ∀ fuel start, (∃ j, j < fuel ∧
        fs.existsPath (candPath destDir stem sfx (start + j)) = false) →
      ∃ j, j < fuel ∧
        probeLoop fs destDir stem sfx start fuel = candPath destDir stem sfx (start + j) ∧
        fs.existsPath (candPath destDir stem sfx (start + j)) = false ∧
        ∀ i < j, fs.existsPath (candPath destDir stem sfx (start + i)) = true := by
  intro fuel
  induction fuel with
  | zero =>
    intro start h
    obtain ⟨j, hj, _⟩ := h
    omega
  | succ f ih =>
    intro start h
    by_cases h0 : fs.existsPath (candPath destDir stem sfx start) = true
    · have hrest : ∃ j, j < f ∧
          fs.existsPath (candPath destDir stem sfx (start + 1 + j)) = false := by
        obtain ⟨j, hj, hfree⟩ := h
        cases j with
        | zero => rw [Nat.add_zero] at hfree; rw [h0] at hfree; cases hfree
        | succ j' =>
          refine ⟨j', by omega, ?_⟩
          have : start + 1 + j' = start + (j' + 1) := by omega
          rw [this]
          exact hfree
      obtain ⟨j, hj, heq, hfree, hmin⟩ := ih (start + 1) hrest
      refine ⟨j + 1, by omega, ?_, ?_, ?_⟩
      · simp only [probeLoop, h0, if_true]
        have : start + (j + 1) = start + 1 + j := by omega
        rw [this]
        exact heq
      · have : start + (j + 1) = start + 1 + j := by omega
        rw [this]
        exact hfree
      · intro i hi
        cases i with
        | zero => simpa using h0
        | succ i' =>
          have : start + (i' + 1) = start + 1 + i' := by omega
          rw [this]
          exact hmin i' (by omega)
    · have h0f : fs.existsPath (candPath destDir stem sfx start) = false := by
        simpa [Bool.not_eq_true] using h0
      refine ⟨0, by omega, ?_, ?_, ?_⟩
      · simp only [probeLoop, h0f]
        simp
      · simpa using h0f
      · intro i hi
        omega

/-! ## Specification of `make_collision_safe_target` (claim C3) -/

theorem mcst_free (fs : FS) (destDir : FsPath) (filename : String) :
    fs.existsPath (make_collision_safe_target fs destDir filename) = false := by
  by_cases h : fs.existsPath (destDir ++ [filename]) = true
  · simp only [make_collision_safe_target, h, if_true]
    obtain ⟨j, hj, hfree⟩ := exists_free_cand fs destDir (pyStem filename) (pySuffix filename)
    obtain ⟨j', _, heq, hfree', _⟩ := probeLoop_sound fs destDir (pyStem filename)
      (pySuffix filename) (fs.files.length + fs.dirs.length + 1) 1 ⟨j, hj, hfree⟩
    rw [heq]
    exact hfree'
  · have hf : fs.existsPath (destDir ++ [filename]) = false := by
      simpa [Bool.not_eq_true] using h
    simp only [make_collision_safe_target, hf]
    simpa using hf

theorem mcst_of_free (fs : FS) (destDir : FsPath) (filename : String)
    (h : fs.existsPath (destDir ++ [filename]) = false) :
    make_collision_safe_target fs destDir filename = destDir ++ [filename] := by
  simp [make_collision_safe_target, h]

theorem mcst_of_taken (fs : FS) (destDir : FsPath) (filename : String)
    (h : fs.existsPath (destDir ++ [filename]) = true) :
    ∃ c, make_collision_safe_target fs destDir filename =
        candPath destDir (pyStem filename) (pySuffix filename) (1 + c) ∧
      fs.existsPath (candPath destDir (pyStem filename) (pySuffix filename) (1 + c)) = false ∧
      ∀ i < c, fs.existsPath
        (candPath destDir (pyStem filename) (pySuffix filename) (1 + i)) = true := by
  simp only [make_collision_safe_target, h, if_true]
  obtain ⟨j, hj, hfree⟩ := exists_free_cand fs destDir (pyStem filename) (pySuffix filename)
  obtain ⟨j', hj', heq, hfree', hmin⟩ := probeLoop_sound fs destDir (pyStem filename)
    (pySuffix filename) (fs.files.length + fs.dirs.length + 1) 1 ⟨j, hj, hfree⟩
  exact ⟨j', heq, hfree', hmin⟩

/-- Every collision-safe target lives directly inside the requested
destination directory. -/
theorem mcst_shape (fs : FS) (destDir : FsPath) (filename : String) :
    ∃ nm, make_collision_safe_target fs destDir filename = destDir ++ [nm] := by
  by_cases h : fs.existsPath (destDir ++ [filename]) = true
  · obtain ⟨c, heq, _, _⟩ := mcst_of_taken fs destDir filename h
    exact ⟨candName (pyStem filename) (pySuffix filename) (1 + c), heq⟩
  · have hf : fs.existsPath (destDir ++ [filename]) = false := by
      simpa [Bool.not_eq_true] using h
    exact ⟨filename, mcst_of_free fs destDir filename hf⟩

/-! ## Characterization of the per-file classification -/

theorem classifyFile_kw_ok (kwMap : List (String × KeywordRule))
    (extMap mimeMap : List (String × String)) (detect : FsPath → String)
    (ab : FsPath) (today : String) (fs : FS) (file : FsPath)
    (k : String) (tgt : Option String) (destDir : FsPath)
    (hmk : match_keyword (pathName file) kwMap = some (k, tgt)) (hk : k ≠ "")
    (hex : expandPathOpt tgt = Except.ok destDir) :
    classifyFile kwMap extMap mimeMap detect ab today fs file =
      Except.ok ("keyword", k, make_collision_safe_target fs destDir (pathName file)) := by
  simp [classifyFile, hmk, hk, hex]

theorem classifyFile_kw_err (kwMap : List (String × KeywordRule))
    (extMap mimeMap : List (String × String)) (detect : FsPath → String)
    (ab : FsPath) (today : String) (fs : FS) (file : FsPath)
    (k : String) (tgt : Option String) (e : String)
    (hmk : match_keyword (pathName file) kwMap = some (k, tgt)) (hk : k ≠ "")
    (hex : expandPathOpt tgt = Except.error e) :
    classifyFile kwMap extMap mimeMap detect ab today fs file = Except.error e := by
  simp [classifyFile, hmk, hk, hex]

theorem classifyFile_no_kw (kwMap : List (String × KeywordRule))
    (extMap mimeMap : List (String × String)) (detect : FsPath → String)
    (ab : FsPath) (today : String) (fs : FS) (file : FsPath)
    (hmk : match_keyword (pathName file) kwMap = none ∨
      ∃ tgt, match_keyword (pathName file) kwMap = some ("", tgt)) :
    classifyFile kwMap extMap mimeMap detect ab today fs file =
      classifyNoKw extMap mimeMap detect ab today fs file := by
  rcases hmk with h | ⟨tgt, h⟩
  · simp [classifyFile, h]
  · simp [classifyFile, h]

theorem classifyNoKw_ext_ok (extMap mimeMap : List (String × String))
    (detect : FsPath → String) (ab : FsPath) (today : String) (fs : FS)
    (file : FsPath) (ext tgt : String) (destDir : FsPath)
    (hme : match_extension (pathName file) extMap = some (ext, tgt))
    (hex : expand_path tgt = Except.ok destDir) :
    classifyNoKw extMap mimeMap detect ab today fs file =
      Except.ok ("extension", ext, make_collision_safe_target fs destDir (pathName file)) := by
  simp [classifyNoKw, hme, hex]

theorem classifyNoKw_ext_err (extMap mimeMap : List (String × String))
    (detect : FsPath → String) (ab : FsPath) (today : String) (fs : FS)
    (file : FsPath) (ext tgt e : String)
    (hme : match_extension (pathName file) extMap = some (ext, tgt))
    (hex : expand_path tgt = Except.error e) :
    classifyNoKw extMap mimeMap detect ab today fs file = Except.error e := by
  simp [classifyNoKw, hme, hex]

theorem classifyNoKw_mime_ok (extMap mimeMap : List (String × String))
    (detect : FsPath → String) (ab : FsPath) (today : String) (fs : FS)
    (file : FsPath) (mk tgt : String) (destDir : FsPath)
    (hme : match_extension (pathName file) extMap = none)
    (hmm : match_mime (detect file) mimeMap = some (mk, tgt))
    (hne : mk ≠ "")
    (hex : expand_path tgt = Except.ok destDir) :
    classifyNoKw extMap mimeMap detect ab today fs file =
      Except.ok ("mime", mk, make_collision_safe_target fs destDir (pathName file)) := by
  simp [classifyNoKw, hme, hmm, hne, hex]

theorem classifyNoKw_arch (extMap mimeMap : List (String × String))
    (detect : FsPath → String) (ab : FsPath) (today : String) (fs : FS)
    (file : FsPath)
    (hme : match_extension (pathName file) extMap = none)
    (hmm : match_mime (detect file) mimeMap = none ∨
      ∃ t, match_mime (detect file) mimeMap = some ("", t)) :
    classifyNoKw extMap mimeMap detect ab today fs file =
      Except.ok ("archive", "archive_fallback",
        make_collision_safe_target fs (ab ++ [today]) (pathName file)) := by
  rcases hmm with h | ⟨t, h⟩
  · simp [classifyNoKw, hme, h]
  · simp [classifyNoKw, hme, h]

theorem classifyNoKw_ok_stage (extMap mimeMap : List (String × String))
    (detect : FsPath → String) (ab : FsPath) (today : String) (fs : FS)
    (file : FsPath) (st k : String) (d : FsPath)
    (h : classifyNoKw extMap mimeMap detect ab today fs file = Except.ok (st, k, d)) :
    st = "extension" ∨ st = "mime" ∨ st = "archive" := by
  simp only [classifyNoKw] at h
  split at h
  · split at h
    · cases h
    · simp only [Except.ok.injEq, Prod.mk.injEq] at h
      left
      exact h.1.symm
  · split at h
    · split at h
      · split at h
        · cases h
        · simp only [Except.ok.injEq, Prod.mk.injEq] at h
          right; left
          exact h.1.symm
      · simp only [Except.ok.injEq, Prod.mk.injEq] at h
        right; right
        exact h.1.symm
    · simp only [Except.ok.injEq, Prod.mk.injEq] at h
      right; right
      exact h.1.symm

theorem classifyFile_ok_stage (kwMap : List (String × KeywordRule))
    (extMap mimeMap : List (String × String)) (detect : FsPath → String)
    (ab : FsPath) (today : String) (fs : FS) (file : FsPath)
    (st k : String) (d : FsPath)
    (h : classifyFile kwMap extMap mimeMap detect ab today fs file = Except.ok (st, k, d)) :
    st = "keyword" ∨ st = "extension" ∨ st = "mime" ∨ st = "archive" := by
  simp only [classifyFile] at h
  split at h
  · split at h
    · split at h
      · cases h
      · simp only [Except.ok.injEq, Prod.mk.injEq] at h
        left
        exact h.1.symm
    · right
      exact classifyNoKw_ok_stage extMap mimeMap detect ab today fs file st k d h
  · right
    exact classifyNoKw_ok_stage extMap mimeMap detect ab today fs file st k d h

/-! ## Characterization of the execute-or-plan stage and the per-file body -/

theorem finishFile_dry (ab : FsPath) (fs : FS) (st r : String)
    (file dest : FsPath) :
    finishFile ab true fs st r file dest =
      Except.ok (fs, ⟨st, some r, pathStr file, pathStr dest⟩) := rfl

theorem finishFile_exec_parent_exists (ab : FsPath) (fs : FS) (st r : String)
    (file dest : FsPath) (h : fs.existsPath dest.dropLast = true) :
    finishFile ab false fs st r file dest =
      Except.ok ((do_move fs file dest).1, ⟨st, some r, pathStr file, pathStr dest⟩) := by
  simp [finishFile, h, do_move]

theorem finishFile_exec_mkdir (ab : FsPath) (fs : FS) (st r : String)
    (file dest : FsPath) (h : fs.existsPath dest.dropLast = false)
    (hs : strStarts (pathStr dest.dropLast) (pathStr ab) = true) :
    finishFile ab false fs st r file dest =
      Except.ok ((do_move (fs.mkdirParents dest.dropLast) file dest).1,
        ⟨st, some r, pathStr file, pathStr dest⟩) := by
  simp [finishFile, h, hs, do_move]

theorem finishFile_exec_err (ab : FsPath) (fs : FS) (st r : String)
    (file dest : FsPath) (h : fs.existsPath dest.dropLast = false)
    (hs : strStarts (pathStr dest.dropLast) (pathStr ab) = false) :
    finishFile ab false fs st r file dest =
      Except.error
        ("Destination parent does not exist for non-archive target: " ++
          pathStr dest.dropLast) := by
  simp [finishFile, h, hs]

theorem finishFile_ok_shape (ab : FsPath) (dry : Bool) (fs : FS) (st r : String)
    (file dest : FsPath) (fs2 : FS) (act : Action)
    (h : finishFile ab dry fs st r file dest = Except.ok (fs2, act)) :
    act = ⟨st, some r, pathStr file, pathStr dest⟩ := by
  simp only [finishFile] at h
  split at h
  · simp only [Except.ok.injEq, Prod.mk.injEq] at h
    exact h.2.symm
  · split at h
    · simp only [Except.ok.injEq, Prod.mk.injEq] at h
      exact h.2.symm
    · split at h
      · simp only [Except.ok.injEq, Prod.mk.injEq] at h
        exact h.2.symm
      · cases h

theorem processOne_eq_classify_err (kwMap : List (String × KeywordRule))
    (extMap mimeMap : List (String × String)) (detect : FsPath → String)
    (ab : FsPath) (today : String) (dry : Bool) (fs : FS) (file : FsPath)
    (e : String)
    (h : classifyFile kwMap extMap mimeMap detect ab today fs file = Except.error e) :
    processOne kwMap extMap mimeMap detect ab today dry fs file =
      ⟨0, 0, 0, 0, 1, fs, errorAction file e⟩ := by
  simp [processOne, h]

theorem processOne_eq_ok (kwMap : List (String × KeywordRule))
    (extMap mimeMap : List (String × String)) (detect : FsPath → String)
    (ab : FsPath) (today : String) (dry : Bool) (fs : FS) (file : FsPath)
    (st k : String) (d : FsPath) (fs2 : FS) (act : Action)
    (h : classifyFile kwMap extMap mimeMap detect ab today fs file = Except.ok (st, k, d))
    (hf : finishFile ab dry fs st k file d = Except.ok (fs2, act)) :
    processOne kwMap extMap mimeMap detect ab today dry fs file =
      ⟨(deltaFor st).1, (deltaFor st).2.1, (deltaFor st).2.2.1, (deltaFor st).2.2.2,
        0, fs2, act⟩ := by
  simp [processOne, h, hf]

theorem processOne_eq_finish_err (kwMap : List (String × KeywordRule))
    (extMap mimeMap : List (String × String)) (detect : FsPath → String)
    (ab : FsPath) (today : String) (dry : Bool) (fs : FS) (file : FsPath)
    (st k : String) (d : FsPath) (e : String)
    (h : classifyFile kwMap extMap mimeMap detect ab today fs file = Except.ok (st, k, d))
    (hf : finishFile ab dry fs st k file d = Except.error e) :
    processOne kwMap extMap mimeMap detect ab today dry fs file =
      ⟨(deltaFor st).1, (deltaFor st).2.1, (deltaFor st).2.2.1, (deltaFor st).2.2.2,
        1, fs, errorAction file e⟩ := by
  simp [processOne, h, hf]

theorem deltaFor_sum (st : String)
    (h : st = "keyword" ∨ st = "extension" ∨ st = "mime" ∨ st = "archive") :
    (deltaFor st).1 + (deltaFor st).2.1 + (deltaFor st).2.2.1 + (deltaFor st).2.2.2 = 1 := by
  rcases h with h | h | h | h <;> subst h <;> decide

/-- The error counter delta of one file is 1 exactly when its recorded
action is error-tagged. -/
theorem processOne_err_action (kwMap : List (String × KeywordRule))
    (extMap mimeMap : List (String × String)) (detect : FsPath → String)
    (ab : FsPath) (today : String) (dry : Bool) (fs : FS) (file : FsPath) :
    ((processOne kwMap extMap mimeMap detect ab today dry fs file).err = 1 ∧
      (processOne kwMap extMap mimeMap detect ab today dry fs file).action.stage = "error") ∨
    ((processOne kwMap extMap mimeMap detect ab today dry fs file).err = 0 ∧
      (processOne kwMap extMap mimeMap detect ab today dry fs file).action.stage ≠ "error") := by
  rcases h : classifyFile kwMap extMap mimeMap detect ab today fs file with e | res
  · left
    rw [processOne_eq_classify_err kwMap extMap mimeMap detect ab today dry fs file e h]
    exact ⟨rfl, rfl⟩
  · obtain ⟨st, k, d⟩ := res
    have hst := classifyFile_ok_stage kwMap extMap mimeMap detect ab today fs file st k d h
    rcases hf : finishFile ab dry fs st k file d with e | res2
    · left
      rw [processOne_eq_finish_err kwMap extMap mimeMap detect ab today dry fs file
        st k d e h hf]
      exact ⟨rfl, rfl⟩
    · obtain ⟨fs2, act⟩ := res2
      right
      rw [processOne_eq_ok kwMap extMap mimeMap detect ab today dry fs file
        st k d fs2 act h hf]
      refine ⟨rfl, ?_⟩
      have hact := finishFile_ok_shape ab dry fs st k file d fs2 act hf
      rw [hact]
      simp only [Action.stage]
      rcases hst with h1 | h1 | h1 | h1 <;> subst h1 <;> decide

/-- In dry-run mode one file's processing leaves the filesystem alone. -/
theorem processOne_dry_fs (kwMap : List (String × KeywordRule))
    (extMap mimeMap : List (String × String)) (detect : FsPath → String)
    (ab : FsPath) (today : String) (fs : FS) (file : FsPath) :
    (processOne kwMap extMap mimeMap detect ab today true fs file).fs = fs := by
  rcases h : classifyFile kwMap extMap mimeMap detect ab today fs file with e | res
  · rw [processOne_eq_classify_err kwMap extMap mimeMap detect ab today true fs file e h]
  · obtain ⟨st, k, d⟩ := res
    rw [processOne_eq_ok kwMap extMap mimeMap detect ab today true fs file
      st k d fs ⟨st, some k, pathStr file, pathStr d⟩ h (finishFile_dry ab fs st k file d)]

/-! ## Path rendering and archive-parent lemmas -/

theorem startsList_self_append : ∀ l r : List Char, startsList l (l ++ r) = true := by
  intro l
  induction l with
  | nil => intro r; rfl
  | cons a t ih =>
    intro r
    simp [startsList, ih]

theorem strStarts_append (s t : String) : strStarts (s ++ t) s = true := by
  simp only [strStarts, String.data_append]
  exact startsList_self_append s.data t.data

theorem pathStr_append_singleton : ∀ (l : FsPath) (x : String), l ≠ [] →
    pathStr (l ++ [x]) = pathStr l ++ "/" ++ x := by
  intro l
  induction l with
  | nil => intro x h; cases h rfl
  | cons c t ih =>
    intro x _
    cases t with
    | nil => simp [pathStr]
    | cons d t2 =>
      have := ih x (by simp)
      simp only [List.cons_append, pathStr] at this ⊢
      rw [List.append_eq, this]
      simp [String.append_assoc]

theorem strStarts_pathStr_archive (ab : FsPath) (x : String) (hab : ab ≠ []) :
    strStarts (pathStr (ab ++ [x])) (pathStr ab) = true := by
  rw [pathStr_append_singleton ab x hab, String.append_assoc]
  exact strStarts_append (pathStr ab) ("/" ++ x)

theorem splitComp_ne_nil : ∀ (l : List Char) (cur : List Char), splitComp cur l ≠ [] := by
  intro l
  induction l with
  | nil => intro cur; simp [splitComp]
  | cons c rest ih =>
    intro cur
    by_cases h : c = '/'
    · simp [splitComp, h]
    · simpa [splitComp, h] using ih (c :: cur)

theorem splitPath_ne_nil (s : String) : splitPath s ≠ [] := splitComp_ne_nil s.data []

theorem expand_path_ne_nil (raw : String) (p : FsPath)
    (h : expand_path raw = Except.ok p) : p ≠ [] := by
  simp only [expand_path] at h
  split at h
  · cases h
  · simp only [Except.ok.injEq] at h
    rw [← h]
    exact splitPath_ne_nil raw

/-- Moving into an archive destination always succeeds: the parent either
exists or is auto-created, because its rendered path extends the rendered
archive base. -/
theorem finishFile_archive_ok (ab : FsPath) (today : String) (dry : Bool)
    (fs : FS) (st k : String) (file d : FsPath) (hab : ab ≠ [])
    (hd : d.dropLast = ab ++ [today]) :
    ∃ fs2, finishFile ab dry fs st k file d =
      Except.ok (fs2, ⟨st, some k, pathStr file, pathStr d⟩) := by
  cases dry with
  | true => exact ⟨fs, finishFile_dry ab fs st k file d⟩
  | false =>
    by_cases hp : fs.existsPath d.dropLast = true
    · exact ⟨(do_move fs file d).1, finishFile_exec_parent_exists ab fs st k file d hp⟩
    · have hpf : fs.existsPath d.dropLast = false := by
        simpa [Bool.not_eq_true] using hp
      have hs : strStarts (pathStr d.dropLast) (pathStr ab) = true := by
        rw [hd]
        exact strStarts_pathStr_archive ab today hab
      exact ⟨(do_move (fs.mkdirParents d.dropLast) file d).1,
        finishFile_exec_mkdir ab fs st k file d hpf hs⟩

/-- Every successfully classified destination is the collision-safe target
of some destination directory (computed against the current filesystem). -/
theorem classifyFile_ok_dest (kwMap : List (String × KeywordRule))
    (extMap mimeMap : List (String × String)) (detect : FsPath → String)
    (ab : FsPath) (today : String) (fs : FS) (file : FsPath)
    (st k : String) (d : FsPath)
    (h : classifyFile kwMap extMap mimeMap detect ab today fs file = Except.ok (st, k, d)) :
    ∃ dd, d = make_collision_safe_target fs dd (pathName file) := by
  have noKw : ∀ h2 : classifyNoKw extMap mimeMap detect ab today fs file =
      Except.ok (st, k, d), ∃ dd, d = make_collision_safe_target fs dd (pathName file) := by
    intro h2
    simp only [classifyNoKw] at h2
    split at h2
    · split at h2
      · cases h2
      · simp only [Except.ok.injEq, Prod.mk.injEq] at h2
        exact ⟨_, h2.2.2.symm⟩
    · split at h2
      · split at h2
        · split at h2
          · cases h2
          · simp only [Except.ok.injEq, Prod.mk.injEq] at h2
            exact ⟨_, h2.2.2.symm⟩
        · simp only [Except.ok.injEq, Prod.mk.injEq] at h2
          exact ⟨_, h2.2.2.symm⟩
      · simp only [Except.ok.injEq, Prod.mk.injEq] at h2
        exact ⟨_, h2.2.2.symm⟩
  simp only [classifyFile] at h
  split at h
  · split at h
    · split at h
      · cases h
      · simp only [Except.ok.injEq, Prod.mk.injEq] at h
        exact ⟨_, h.2.2.symm⟩
    · exact noKw h
  · exact noKw h

theorem processOne_stage_of_classify_ok (kwMap : List (String × KeywordRule))
    (extMap mimeMap : List (String × String)) (detect : FsPath → String)
    (ab : FsPath) (today : String) (dry : Bool) (fs : FS) (file : FsPath)
    (st k : String) (d : FsPath)
    (h : classifyFile kwMap extMap mimeMap detect ab today fs file = Except.ok (st, k, d)) :
    (processOne kwMap extMap mimeMap detect ab today dry fs file).action.stage = st ∨
    (processOne kwMap extMap mimeMap detect ab today dry fs file).action.stage = "error" := by
  rcases hf : finishFile ab dry fs st k file d with e | res2
  · right
    rw [processOne_eq_finish_err kwMap extMap mimeMap detect ab today dry fs file
      st k d e h hf]
    rfl
  · obtain ⟨fs2, act⟩ := res2
    left
    rw [processOne_eq_ok kwMap extMap mimeMap detect ab today dry fs file
      st k d fs2 act h hf]
    rw [finishFile_ok_shape ab dry fs st k file d fs2 act hf]

theorem processOne_stage_of_classify_err (kwMap : List (String × KeywordRule))
    (extMap mimeMap : List (String × String)) (detect : FsPath → String)
    (ab : FsPath) (today : String) (dry : Bool) (fs : FS) (file : FsPath)
    (e : String)
    (h : classifyFile kwMap extMap mimeMap detect ab today fs file = Except.error e) :
    (processOne kwMap extMap mimeMap detect ab today dry fs file).action.stage = "error" := by
  rw [processOne_eq_classify_err kwMap extMap mimeMap detect ab today dry fs file e h]
  rfl

/-- The per-file decision tag follows the fixed precedence: keyword beats
extension beats content-type beats archive fallback, and a file matching
none of the three always gets the archive tag (an error tag can replace a
matched tag only through a per-file exception). -/
theorem processOne_stage (kwMap : List (String × KeywordRule))
    (extMap mimeMap : List (String × String)) (detect : FsPath → String)
    (ab : FsPath) (today : String) (dry : Bool) (fs : FS) (file : FsPath)
    (hab : ab ≠ []) :
    (kwHit (pathName file) kwMap = true →
      (processOne kwMap extMap mimeMap detect ab today dry fs file).action.stage = "keyword" ∨
      (processOne kwMap extMap mimeMap detect ab today dry fs file).action.stage = "error") ∧
    (kwHit (pathName file) kwMap = false → extHit (pathName file) extMap = true →
      (processOne kwMap extMap mimeMap detect ab today dry fs file).action.stage = "extension" ∨
      (processOne kwMap extMap mimeMap detect ab today dry fs file).action.stage = "error") ∧
    (kwHit (pathName file) kwMap = false → extHit (pathName file) extMap = false →
        mimeHit (detect file) mimeMap = true →
      (processOne kwMap extMap mimeMap detect ab today dry fs file).action.stage = "mime" ∨
      (processOne kwMap extMap mimeMap detect ab today dry fs file).action.stage = "error") ∧
    (kwHit (pathName file) kwMap = false → extHit (pathName file) extMap = false →
        mimeHit (detect file) mimeMap = false →
      (processOne kwMap extMap mimeMap detect ab today dry fs file).action.stage = "archive") := by
  have hnoKw : kwHit (pathName file) kwMap = false →
      classifyFile kwMap extMap mimeMap detect ab today fs file =
        classifyNoKw extMap mimeMap detect ab today fs file := by
    intro hk
    apply classifyFile_no_kw
    rcases hmk : match_keyword (pathName file) kwMap with _ | ⟨k, t⟩
    · left; rfl
    · right
      have hkeq : k = "" := by simpa [kwHit, hmk] using hk
      subst hkeq
      exact ⟨t, rfl⟩
  refine ⟨?_, ?_, ?_, ?_⟩
  · intro hk
    rcases hmk : match_keyword (pathName file) kwMap with _ | ⟨k, t⟩
    · simp [kwHit, hmk] at hk
    · have hkne : k ≠ "" := by simpa [kwHit, hmk] using hk
      rcases hex : expandPathOpt t with e | dd
      · right
        exact processOne_stage_of_classify_err kwMap extMap mimeMap detect ab today dry
          fs file e (classifyFile_kw_err kwMap extMap mimeMap detect ab today fs file
            k t e hmk hkne hex)
      · exact processOne_stage_of_classify_ok kwMap extMap mimeMap detect ab today dry
          fs file _ _ _ (classifyFile_kw_ok kwMap extMap mimeMap detect ab today fs file
            k t dd hmk hkne hex)
  · intro hk he
    rcases hme : match_extension (pathName file) extMap with _ | ⟨ext, tgt⟩
    · simp [extHit, hme] at he
    · rcases hex : expand_path tgt with e | dd
      · right
        apply processOne_stage_of_classify_err kwMap extMap mimeMap detect ab today dry
          fs file e
        rw [hnoKw hk]
        exact classifyNoKw_ext_err extMap mimeMap detect ab today fs file ext tgt e hme hex
      · apply processOne_stage_of_classify_ok kwMap extMap mimeMap detect ab today dry
          fs file "extension" ext _
        rw [hnoKw hk]
        exact classifyNoKw_ext_ok extMap mimeMap detect ab today fs file ext tgt dd hme hex
  · intro hk he hm
    have hmeN : match_extension (pathName file) extMap = none := by
      rcases hme : match_extension (pathName file) extMap with _ | p
      · rfl
      · simp [extHit, hme] at he
    rcases hmm : match_mime (detect file) mimeMap with _ | ⟨mk, tgt⟩
    · simp [mimeHit, hmm] at hm
    · have hmkne : mk ≠ "" := by simpa [mimeHit, hmm] using hm
      rcases hex : expand_path tgt with e | dd
      · right
        apply processOne_stage_of_classify_err kwMap extMap mimeMap detect ab today dry
          fs file e
        rw [hnoKw hk]
        simp [classifyNoKw, hmeN, hmm, hmkne, hex]
      · apply processOne_stage_of_classify_ok kwMap extMap mimeMap detect ab today dry
          fs file "mime" mk _
        rw [hnoKw hk]
        exact classifyNoKw_mime_ok extMap mimeMap detect ab today fs file mk tgt dd
          hmeN hmm hmkne hex
  · intro hk he hm
    have hmeN : match_extension (pathName file) extMap = none := by
      rcases hme : match_extension (pathName file) extMap with _ | p
      · rfl
      · simp [extHit, hme] at he
    have hmmN : match_mime (detect file) mimeMap = none ∨
        ∃ t, match_mime (detect file) mimeMap = some ("", t) := by
      rcases hmm : match_mime (detect file) mimeMap with _ | ⟨mk, t⟩
      · left; rfl
      · right
        have hmk0 : mk = "" := by simpa [mimeHit, hmm] using hm
        subst hmk0
        exact ⟨t, rfl⟩
    have hcl : classifyFile kwMap extMap mimeMap detect ab today fs file =
        Except.ok ("archive", "archive_fallback",
          make_collision_safe_target fs (ab ++ [today]) (pathName file)) := by
      rw [hnoKw hk]
      exact classifyNoKw_arch extMap mimeMap detect ab today fs file hmeN hmmN
    obtain ⟨nm, hnm⟩ := mcst_shape fs (ab ++ [today]) (pathName file)
    have hd : (make_collision_safe_target fs (ab ++ [today]) (pathName file)).dropLast =
        ab ++ [today] := by
      rw [hnm]
      exact List.dropLast_concat
    obtain ⟨fs2, hfin⟩ := finishFile_archive_ok ab today dry fs "archive"
      "archive_fallback" file _ hab hd
    rw [processOne_eq_ok kwMap extMap mimeMap detect ab today dry fs file
      "archive" "archive_fallback" _ fs2 _ hcl hfin]

/-- Each candidate file's counter deltas: exactly one classification
counter and at most one error when classification succeeded, or only the
error counter when classification itself raised. -/
theorem processOne_delta (kwMap : List (String × KeywordRule))
    (extMap mimeMap : List (String × String)) (detect : FsPath → String)
    (ab : FsPath) (today : String) (dry : Bool) (fs : FS) (file : FsPath) :
    ((processOne kwMap extMap mimeMap detect ab today dry fs file).kw +
      (processOne kwMap extMap mimeMap detect ab today dry fs file).ext +
      (processOne kwMap extMap mimeMap detect ab today dry fs file).mime +
      (processOne kwMap extMap mimeMap detect ab today dry fs file).arch = 1 ∧
      (processOne kwMap extMap mimeMap detect ab today dry fs file).err ≤ 1) ∨
    ((processOne kwMap extMap mimeMap detect ab today dry fs file).kw +
      (processOne kwMap extMap mimeMap detect ab today dry fs file).ext +
      (processOne kwMap extMap mimeMap detect ab today dry fs file).mime +
      (processOne kwMap extMap mimeMap detect ab today dry fs file).arch = 0 ∧
      (processOne kwMap extMap mimeMap detect ab today dry fs file).err = 1) := by
  rcases h : classifyFile kwMap extMap mimeMap detect ab today fs file with e | res
  · right
    rw [processOne_eq_classify_err kwMap extMap mimeMap detect ab today dry fs file e h]
    exact ⟨rfl, rfl⟩
  · obtain ⟨st, k, d⟩ := res
    have hsum := deltaFor_sum st
      (classifyFile_ok_stage kwMap extMap mimeMap detect ab today fs file st k d h)
    left
    rcases hf : finishFile ab dry fs st k file d with e | res2
    · rw [processOne_eq_finish_err kwMap extMap mimeMap detect ab today dry fs file
        st k d e h hf]
      exact ⟨hsum, le_refl 1⟩
    · obtain ⟨fs2, act⟩ := res2
      rw [processOne_eq_ok kwMap extMap mimeMap detect ab today dry fs file
        st k d fs2 act h hf]
      exact ⟨hsum, Nat.zero_le 1⟩

/-! ## Induction lemmas about the processing loop -/

theorem runFiles_length (kwMap : List (String × KeywordRule))
    (extMap mimeMap : List (String × String)) (detect : FsPath → String)
    (ab : FsPath) (today : String) (dry : Bool) :
    ∀ (files : List FsPath) (fs : FS),
      (runFiles kwMap extMap mimeMap detect ab today dry files fs).2.1.length =
        files.length := by
  intro files
  induction files with
  | nil => intro fs; rfl
  | cons f rest ih =>
    intro fs
    rcases hr : runFiles kwMap extMap mimeMap detect ab today dry rest
        (processOne kwMap extMap mimeMap detect ab today dry fs f).fs with ⟨c, acts, fsEnd⟩
    have := ih (processOne kwMap extMap mimeMap detect ab today dry fs f).fs
    rw [hr] at this
    simp [runFiles, hr, this]

theorem runFiles_errors (kwMap : List (String × KeywordRule))
    (extMap mimeMap : List (String × String)) (detect : FsPath → String)
    (ab : FsPath) (today : String) (dry : Bool) :
    ∀ (files : List FsPath) (fs : FS),
      (runFiles kwMap extMap mimeMap detect ab today dry files fs).1.errors =
        ((runFiles kwMap extMap mimeMap detect ab today dry files fs).2.1.filter
          (fun a => a.stage == "error")).length := by
  intro files
  induction files with
  | nil => intro fs; rfl
  | cons f rest ih =>
    intro fs
    rcases hr : runFiles kwMap extMap mimeMap detect ab today dry rest
        (processOne kwMap extMap mimeMap detect ab today dry fs f).fs with ⟨c, acts, fsEnd⟩
    have hihr := ih (processOne kwMap extMap mimeMap detect ab today dry fs f).fs
    rw [hr] at hihr
    have hihr2 : c.errors =
        (List.filter (fun a => a.stage == "error") acts).length := hihr
    rcases processOne_err_action kwMap extMap mimeMap detect ab today dry fs f with
      ⟨herr, hstage⟩ | ⟨herr, hstage⟩
    · have hbeq : ((processOne kwMap extMap mimeMap detect ab today dry fs f).action.stage ==
          "error") = true := by
        rw [hstage]
        rfl
      simp [runFiles, hr, hihr2, herr, List.filter, hbeq]
    · have hbeq : ((processOne kwMap extMap mimeMap detect ab today dry fs f).action.stage ==
          "error") = false := by
        simpa using hstage
      simp [runFiles, hr, hihr2, herr, List.filter, hbeq]

theorem runFiles_bounds (kwMap : List (String × KeywordRule))
    (extMap mimeMap : List (String × String)) (detect : FsPath → String)
    (ab : FsPath) (today : String) (dry : Bool) :
    ∀ (files : List FsPath) (fs : FS),
      (runFiles kwMap extMap mimeMap detect ab today dry files fs).1.keyword +
        (runFiles kwMap extMap mimeMap detect ab today dry files fs).1.extension +
        (runFiles kwMap extMap mimeMap detect ab today dry files fs).1.mime +
        (runFiles kwMap extMap mimeMap detect ab today dry files fs).1.archived ≤
          files.length ∧
      files.length ≤
        (runFiles kwMap extMap mimeMap detect ab today dry files fs).1.keyword +
        (runFiles kwMap extMap mimeMap detect ab today dry files fs).1.extension +
        (runFiles kwMap extMap mimeMap detect ab today dry files fs).1.mime +
        (runFiles kwMap extMap mimeMap detect ab today dry files fs).1.archived +
        (runFiles kwMap extMap mimeMap detect ab today dry files fs).1.errors := by
  intro files
  induction files with
  | nil => intro fs; exact ⟨Nat.le_refl 0, Nat.le_refl 0⟩
  | cons f rest ih =>
    intro fs
    rcases hr : runFiles kwMap extMap mimeMap detect ab today dry rest
        (processOne kwMap extMap mimeMap detect ab today dry fs f).fs with ⟨c, acts, fsEnd⟩
    have hihr := ih (processOne kwMap extMap mimeMap detect ab today dry fs f).fs
    rw [hr] at hihr
    have hihr2 : c.keyword + c.extension + c.mime + c.archived ≤ rest.length ∧
        rest.length ≤ c.keyword + c.extension + c.mime + c.archived + c.errors := hihr
    have hdelta := processOne_delta kwMap extMap mimeMap detect ab today dry fs f
    have hK : (runFiles kwMap extMap mimeMap detect ab today dry (f :: rest) fs).1.keyword =
        c.keyword + (processOne kwMap extMap mimeMap detect ab today dry fs f).kw := by
      simp [runFiles, hr]
    have hE : (runFiles kwMap extMap mimeMap detect ab today dry (f :: rest) fs).1.extension =
        c.extension + (processOne kwMap extMap mimeMap detect ab today dry fs f).ext := by
      simp [runFiles, hr]
    have hM : (runFiles kwMap extMap mimeMap detect ab today dry (f :: rest) fs).1.mime =
        c.mime + (processOne kwMap extMap mimeMap detect ab today dry fs f).mime := by
      simp [runFiles, hr]
    have hA : (runFiles kwMap extMap mimeMap detect ab today dry (f :: rest) fs).1.archived =
        c.archived + (processOne kwMap extMap mimeMap detect ab today dry fs f).arch := by
      simp [runFiles, hr]
    have hR : (runFiles kwMap extMap mimeMap detect ab today dry (f :: rest) fs).1.errors =
        c.errors + (processOne kwMap extMap mimeMap detect ab today dry fs f).err := by
      simp [runFiles, hr]
    rw [hK, hE, hM, hA, hR, List.length_cons]
    rcases hdelta with ⟨hsum, herr⟩ | ⟨hsum, herr⟩ <;> exact ⟨by omega, by omega⟩

theorem runFiles_dry_fs (kwMap : List (String × KeywordRule))
    (extMap mimeMap : List (String × String)) (detect : FsPath → String)
    (ab : FsPath) (today : String) :
    ∀ (files : List FsPath) (fs : FS),
      (runFiles kwMap extMap mimeMap detect ab today true files fs).2.2 = fs := by
  intro files
  induction files with
  | nil => intro fs; rfl
  | cons f rest ih =>
    intro fs
    have hfs := processOne_dry_fs kwMap extMap mimeMap detect ab today fs f
    rcases hr : runFiles kwMap extMap mimeMap detect ab today true rest
        (processOne kwMap extMap mimeMap detect ab today true fs f).fs with ⟨c, acts, fsEnd⟩
    have hihr := ih (processOne kwMap extMap mimeMap detect ab today true fs f).fs
    rw [hr] at hihr
    rw [hfs] at hihr
    have hihr2 : fsEnd = fs := hihr
    simp [runFiles, hr, hihr2]

theorem processOne_dry_action (kwMap : List (String × KeywordRule))
    (extMap mimeMap : List (String × String)) (detect : FsPath → String)
    (ab : FsPath) (today : String) (fs : FS) (file : FsPath) :
    (processOne kwMap extMap mimeMap detect ab today true fs file).action.stage = "error" ∨
    ∃ dd nm, (processOne kwMap extMap mimeMap detect ab today true fs file).action.dest =
        pathStr (dd ++ [nm]) ∧ fs.existsPath (dd ++ [nm]) = false := by
  rcases h : classifyFile kwMap extMap mimeMap detect ab today fs file with e | res
  · left
    exact processOne_stage_of_classify_err kwMap extMap mimeMap detect ab today true fs file e h
  · obtain ⟨st, k, d⟩ := res
    right
    obtain ⟨dd, hdd⟩ := classifyFile_ok_dest kwMap extMap mimeMap detect ab today fs file
      st k d h
    obtain ⟨nm, hnm⟩ := mcst_shape fs dd (pathName file)
    refine ⟨dd, nm, ?_, ?_⟩
    · rw [processOne_eq_ok kwMap extMap mimeMap detect ab today true fs file
        st k d fs ⟨st, some k, pathStr file, pathStr d⟩ h (finishFile_dry ab fs st k file d)]
      rw [hdd, hnm]
    · rw [← hnm]
      exact mcst_free fs dd (pathName file)

theorem runFiles_dry_dest (kwMap : List (String × KeywordRule))
    (extMap mimeMap : List (String × String)) (detect : FsPath → String)
    (ab : FsPath) (today : String) :
    ∀ (files : List FsPath) (fs : FS),
      ∀ a ∈ (runFiles kwMap extMap mimeMap detect ab today true files fs).2.1,
        a.stage = "error" ∨
        ∃ dd nm, a.dest = pathStr (dd ++ [nm]) ∧ fs.existsPath (dd ++ [nm]) = false := by
  intro files
  induction files with
  | nil => intro fs a ha; cases ha
  | cons f rest ih =>
    intro fs a ha
    have hfs := processOne_dry_fs kwMap extMap mimeMap detect ab today fs f
    rcases hr : runFiles kwMap extMap mimeMap detect ab today true rest
        (processOne kwMap extMap mimeMap detect ab today true fs f).fs with ⟨c, acts, fsEnd⟩
    simp only [runFiles, hr, List.mem_cons] at ha
    rcases ha with rfl | ha
    · exact processOne_dry_action kwMap extMap mimeMap detect ab today fs f
    · have := ih (processOne kwMap extMap mimeMap detect ab today true fs f).fs a
        (by rw [hr]; exact ha)
      rw [hfs] at this
      exact this

theorem runFiles_pointwise (kwMap : List (String × KeywordRule))
    (extMap mimeMap : List (String × String)) (detect : FsPath → String)
    (ab : FsPath) (today : String) (dry : Bool) :
    ∀ (files : List FsPath) (fs : FS) (i : Nat), i < files.length →
      ∃ fsi f, files.get? i = some f ∧
        (runFiles kwMap extMap mimeMap detect ab today dry files fs).2.1.get? i =
          some (processOne kwMap extMap mimeMap detect ab today dry fsi f).action := by
  intro files
  induction files with
  | nil => intro fs i h1; cases h1
  | cons f rest ih =>
    intro fs i h1
    rcases hr : runFiles kwMap extMap mimeMap detect ab today dry rest
        (processOne kwMap extMap mimeMap detect ab today dry fs f).fs with ⟨c, acts, fsEnd⟩
    cases i with
    | zero =>
      refine ⟨fs, f, rfl, ?_⟩
      simp [runFiles, hr]
    | succ i' =>
      have h1' : i' < rest.length := by simpa using h1
      obtain ⟨fsi, g, hg, hact⟩ := ih (processOne kwMap extMap mimeMap detect ab today dry fs f).fs
        i' h1'
      rw [hr] at hact
      refine ⟨fsi, g, by simpa using hg, ?_⟩
      simp only [runFiles, hr]
      simpa using hact

/-! ## Opening lemmas for `process_run` -/

theorem process_run_eq (cfg : Config) (detect : FsPath → String) (today : String)
    (dry : Bool) (fs : FS) (dl ab : FsPath)
    (hdl : expand_path cfg.downloads = Except.ok dl)
    (hab : expand_path cfg.archive_base = Except.ok ab) :
    process_run cfg detect today dry fs = Except.ok
      ⟨⟨(discover_files fs dl).length,
        (runFiles cfg.keyword_map cfg.extension_map cfg.mime_map detect ab today dry
          (discover_files fs dl) fs).1.keyword,
        (runFiles cfg.keyword_map cfg.extension_map cfg.mime_map detect ab today dry
          (discover_files fs dl) fs).1.extension,
        (runFiles cfg.keyword_map cfg.extension_map cfg.mime_map detect ab today dry
          (discover_files fs dl) fs).1.mime,
        (runFiles cfg.keyword_map cfg.extension_map cfg.mime_map detect ab today dry
          (discover_files fs dl) fs).1.archived,
        (runFiles cfg.keyword_map cfg.extension_map cfg.mime_map detect ab today dry
          (discover_files fs dl) fs).1.errors⟩,
       (runFiles cfg.keyword_map cfg.extension_map cfg.mime_map detect ab today dry
          (discover_files fs dl) fs).2.1,
       (runFiles cfg.keyword_map cfg.extension_map cfg.mime_map detect ab today dry
          (discover_files fs dl) fs).2.2⟩ := by
  rcases hr : runFiles cfg.keyword_map cfg.extension_map cfg.mime_map detect ab today dry
      (discover_files fs dl) fs with ⟨c, acts, fsEnd⟩
  simp [process_run, hdl, hab, hr, bind, Except.bind]

theorem process_run_ok_expand (cfg : Config) (detect : FsPath → String)
    (today : String) (dry : Bool) (fs : FS) (s : Summary)
    (h : process_run cfg detect today dry fs = Except.ok s) :
    ∃ dl ab, expand_path cfg.downloads = Except.ok dl ∧
      expand_path cfg.archive_base = Except.ok ab := by
  rcases hdl : expand_path cfg.downloads with e | dl
  · simp [process_run, hdl, bind, Except.bind] at h
  rcases hab : expand_path cfg.archive_base with e | ab
  · simp [process_run, hdl, hab, bind, Except.bind] at h
  exact ⟨dl, ab, rfl, rfl⟩

/-! ## Claim theorems -/

/-- Claim C3: the destination namer returns `destinationDir/filename`
unchanged when that path does not exist; otherwise it probes
`stem (1)ext`, `stem (2)ext`, … in increasing order and returns the first
candidate that does not exist, so the returned path never exists at the
moment it is returned. -/
theorem C3_collision_safe_naming (fs : FS) (destination_dir : FsPath)
    (filename : String) :
    fs.existsPath (make_collision_safe_target fs destination_dir filename) = false ∧
    (fs.existsPath (destination_dir ++ [filename]) = false →
      make_collision_safe_target fs destination_dir filename =
        destination_dir ++ [filename]) ∧
    (fs.existsPath (destination_dir ++ [filename]) = true →
      ∃ c, make_collision_safe_target fs destination_dir filename =
          candPath destination_dir (pyStem filename) (pySuffix filename) (1 + c) ∧
        fs.existsPath
          (candPath destination_dir (pyStem filename) (pySuffix filename) (1 + c)) = false ∧
        ∀ i < c, fs.existsPath
          (candPath destination_dir (pyStem filename) (pySuffix filename) (1 + i)) = true) :=
  ⟨mcst_free fs destination_dir filename,
   mcst_of_free fs destination_dir filename,
   mcst_of_taken fs destination_dir filename⟩

/-- Witness for C3 at a concrete collision: `report.txt` and
`report (1).txt` already exist, so the namer returns `report (2).txt`. -/
theorem C3_collision_safe_naming_witness :
    FS.existsPath ⟨[["", "d", "report.txt"], ["", "d", "report (1).txt"]], [["", "d"]]⟩
      (["", "d"] ++ ["report.txt"]) = true ∧
    ∃ c, make_collision_safe_target
        ⟨[["", "d", "report.txt"], ["", "d", "report (1).txt"]], [["", "d"]]⟩
        ["", "d"] "report.txt" =
        candPath ["", "d"] (pyStem "report.txt") (pySuffix "report.txt") (1 + c) ∧
      FS.existsPath ⟨[["", "d", "report.txt"], ["", "d", "report (1).txt"]], [["", "d"]]⟩
        (candPath ["", "d"] (pyStem "report.txt") (pySuffix "report.txt") (1 + c)) = false ∧
      ∀ i < c, FS.existsPath
        ⟨[["", "d", "report.txt"], ["", "d", "report (1).txt"]], [["", "d"]]⟩
        (candPath ["", "d"] (pyStem "report.txt") (pySuffix "report.txt") (1 + i)) = true :=
  ⟨by decide,
   (C3_collision_safe_naming
     ⟨[["", "d", "report.txt"], ["", "d", "report (1).txt"]], [["", "d"]]⟩
     ["", "d"] "report.txt").2.2 (by decide)⟩

theorem subOf_nil : ∀ l : List Char, subOf [] l = true := by
  intro l
  cases l <;> rfl

/-- Claim C6: keyword classification lowercases the filename and the keys,
scans the map in insertion order, and the first key contained in the
filename wins (so an earlier rule beats a later one, and matching is
case-insensitive in the filename). -/
theorem C6_keyword_order_and_case (f : String) (m : List (String × KeywordRule)) :
    match_keyword f m =
      (m.find? (fun kv => subOf (lowerStr kv.1).data (lowerStr f).data)).map
        (fun kv => (kv.1, kv.2.target)) ∧
    (∀ g, lowerStr f = lowerStr g → match_keyword f m = match_keyword g m) ∧
    (∀ i, i < m.length → ∀ kv, m.get? i = some kv →
      subOf (lowerStr kv.1).data (lowerStr f).data = true →
      ∃ j kv2, j ≤ i ∧ m.get? j = some kv2 ∧
        subOf (lowerStr kv2.1).data (lowerStr f).data = true ∧
        match_keyword f m = some (kv2.1, kv2.2.target)) := by
  refine ⟨?_, ?_, ?_⟩
  · induction m with
    | nil => rfl
    | cons kv rest ih =>
      obtain ⟨key, rule⟩ := kv
      by_cases h : subOf (lowerStr key).data (lowerStr f).data = true
      · simp [match_keyword, List.find?, h]
      · have hf : subOf (lowerStr key).data (lowerStr f).data = false := by
          simpa [Bool.not_eq_true] using h
        simp [match_keyword, List.find?, hf, ih]
  · intro g hfg
    induction m with
    | nil => rfl
    | cons kv rest ih =>
      obtain ⟨key, rule⟩ := kv
      simp only [match_keyword, hfg]
      split <;> simp [ih]
  · induction m with
    | nil => intro i hi; simp at hi
    | cons kv rest ih =>
      intro i hi kv0 hkv0 hsub
      obtain ⟨key, rule⟩ := kv
      by_cases h : subOf (lowerStr key).data (lowerStr f).data = true
      · exact ⟨0, (key, rule), Nat.zero_le i, rfl, h, by simp [match_keyword, h]⟩
      · have hf : subOf (lowerStr key).data (lowerStr f).data = false := by
          simpa [Bool.not_eq_true] using h
        cases i with
        | zero =>
          simp only [List.get?] at hkv0
          cases hkv0
          rw [hsub] at hf
          cases hf
        | succ i' =>
          have hi' : i' < rest.length := by simpa using hi
          obtain ⟨j, kv2, hj, hkv2, hsub2, hmk⟩ := ih i' hi' kv0 (by simpa using hkv0) hsub
          exact ⟨j + 1, kv2, by omega, by simpa using hkv2, hsub2,
            by simp [match_keyword, hf, hmk]⟩

/-- Witness for C6: with two rules whose keys both occur in the filename,
the rule inserted earlier wins, despite mixed case. -/
theorem C6_keyword_order_and_case_witness :
    ∃ j kv2, j ≤ 1 ∧
      [("inv", KeywordRule.mk (some "/a")), ("invoice", KeywordRule.mk (some "/b"))].get? j =
        some kv2 ∧
      subOf (lowerStr kv2.1).data (lowerStr "My INVOICE.pdf").data = true ∧
      match_keyword "My INVOICE.pdf"
        [("inv", KeywordRule.mk (some "/a")), ("invoice", KeywordRule.mk (some "/b"))] =
        some (kv2.1, kv2.2.target) :=
  (C6_keyword_order_and_case "My INVOICE.pdf"
    [("inv", KeywordRule.mk (some "/a")), ("invoice", KeywordRule.mk (some "/b"))]).2.2
    1 (by decide) ("invoice", KeywordRule.mk (some "/b")) (by decide) (by decide)

/-- Counterexample to claim C7 as stated: the suffix `txt` is present as a
key in the extension map, yet the file does not match, because the code's
truthiness test rejects the empty-string target. -/
theorem C7_counterexample :
    assocGet [("txt", "")] "txt" = some "" ∧
    match_extension "a.txt" [("txt", "")] = none := by
  refine ⟨rfl, ?_⟩
  decide

/-- Claim C7 (amended): for every filename whose lowercased,
pathlib-style suffix (without the dot) is non-empty and present as a key
in the extension map with a non-empty target, the file matches the
extension rule and is routed to that key's target. -/
theorem C7_extension_match (fn : String) (m : List (String × String)) (t : String)
    (hne : stripDots (lowerStr (pySuffix fn)) ≠ "")
    (hget : assocGet m (stripDots (lowerStr (pySuffix fn))) = some t)
    (ht : t ≠ "") :
    match_extension fn m = some (stripDots (lowerStr (pySuffix fn)), t) := by
  simp [match_extension, assocGetTruthy, hne, hget, ht]

/-- Witness for C7 (amended): `photo.JPG` matches the `jpg` rule
case-insensitively. -/
theorem C7_extension_match_witness :
    match_extension "photo.JPG" [("jpg", "/pics")] =
      some (stripDots (lowerStr (pySuffix "photo.JPG")), "/pics") :=
  C7_extension_match "photo.JPG" [("jpg", "/pics")] "/pics"
    (by decide) (by decide) (by decide)

/-- Claim C10: an empty keyword key is reported by `match_keyword` (the
empty string is a substring of every filename) but never applied: the
engine's truthiness test treats it as no match and classification falls
through to the later steps, and any applied keyword decision carries a
non-empty key. -/
theorem C10_empty_keyword_key :
    (∀ (fn : String) (r : KeywordRule) (rest : List (String × KeywordRule)),
      match_keyword fn (("", r) :: rest) = some ("", r.target)) ∧
    (∀ (r : KeywordRule) (rest : List (String × KeywordRule))
      (extMap mimeMap : List (String × String)) (detect : FsPath → String)
      (ab : FsPath) (today : String) (fs : FS) (file : FsPath),
      classifyFile (("", r) :: rest) extMap mimeMap detect ab today fs file =
        classifyNoKw extMap mimeMap detect ab today fs file) ∧
    (∀ (kwMap : List (String × KeywordRule)) (extMap mimeMap : List (String × String))
      (detect : FsPath → String) (ab : FsPath) (today : String) (fs : FS)
      (file : FsPath) (k : String) (d : FsPath),
      classifyFile kwMap extMap mimeMap detect ab today fs file =
        Except.ok ("keyword", k, d) → k ≠ "") := by
  refine ⟨?_, ?_, ?_⟩
  · intro fn r rest
    have hsub : subOf (lowerStr "").data (lowerStr fn).data = true := subOf_nil _
    simp [match_keyword, hsub]
  · intro r rest extMap mimeMap detect ab today fs file
    apply classifyFile_no_kw
    right
    have hsub : subOf (lowerStr "").data (lowerStr (pathName file)).data = true := subOf_nil _
    exact ⟨r.target, by simp [match_keyword, hsub]⟩
  · intro kwMap extMap mimeMap detect ab today fs file k d h
    have hNoKw : ∀ h2 : classifyNoKw extMap mimeMap detect ab today fs file =
        Except.ok ("keyword", k, d), False := by
      intro h2
      rcases classifyNoKw_ok_stage extMap mimeMap detect ab today fs file
        "keyword" k d h2 with h3 | h3 | h3 <;> exact absurd h3 (by decide)
    simp only [classifyFile] at h
    split at h
    · split at h
      · split at h
        · cases h
        · simp only [Except.ok.injEq, Prod.mk.injEq] at h
          rw [← h.2.1]
          assumption
      · cases hNoKw h
    · cases hNoKw h

/-- Witness for C10: the engine reports an empty-key match but the
truthiness gate means an applied keyword decision always carries a
non-empty key. -/
theorem C10_empty_keyword_key_witness :
    match_keyword "a.txt" [("", KeywordRule.mk (some "/x"))] = some ("", some "/x") ∧
    ("pdf" : String) ≠ "" :=
  ⟨C10_empty_keyword_key.1 "a.txt" (KeywordRule.mk (some "/x")) [],
   C10_empty_keyword_key.2.2 [("pdf", KeywordRule.mk (some "/docs"))] [] []
     (fun _ => "") ["", "Arch"] "2026-10-12" ⟨[], []⟩ ["", "dl", "a.pdf"]
     "pdf" ["", "docs", "a.pdf"] (by decide)⟩

/-- Claim C1: every discovered candidate file yields exactly one routing
decision (the action list is as long as the scan count), and the decision
tag follows the fixed precedence keyword > extension > content-type >
archive fallback, with a file matching none of the three always receiving
the archive-fallback decision. -/
theorem C1_one_decision_fixed_precedence (cfg : Config) (detect : FsPath → String)
    (today : String) (dry : Bool) (fs : FS) (s : Summary) (dl ab : FsPath)
    (h : process_run cfg detect today dry fs = Except.ok s)
    (hdl : expand_path cfg.downloads = Except.ok dl)
    (hab : expand_path cfg.archive_base = Except.ok ab) :
    s.actions.length = s.counts.scanned ∧
    s.counts.scanned = (discover_files fs dl).length ∧
    (∀ i, i < (discover_files fs dl).length →
      ∃ f a, (discover_files fs dl).get? i = some f ∧ s.actions.get? i = some a ∧
        (kwHit (pathName f) cfg.keyword_map = true →
          a.stage = "keyword" ∨ a.stage = "error") ∧
        (kwHit (pathName f) cfg.keyword_map = false →
            extHit (pathName f) cfg.extension_map = true →
          a.stage = "extension" ∨ a.stage = "error") ∧
        (kwHit (pathName f) cfg.keyword_map = false →
            extHit (pathName f) cfg.extension_map = false →
            mimeHit (detect f) cfg.mime_map = true →
          a.stage = "mime" ∨ a.stage = "error") ∧
        (kwHit (pathName f) cfg.keyword_map = false →
            extHit (pathName f) cfg.extension_map = false →
            mimeHit (detect f) cfg.mime_map = false →
          a.stage = "archive")) := by
  have heq := process_run_eq cfg detect today dry fs dl ab hdl hab
  rw [h] at heq
  have hs := Except.ok.inj heq
  subst hs
  refine ⟨runFiles_length cfg.keyword_map cfg.extension_map cfg.mime_map detect ab today dry
    (discover_files fs dl) fs, rfl, ?_⟩
  intro i hi
  obtain ⟨fsi, f, hf, hact⟩ := runFiles_pointwise cfg.keyword_map cfg.extension_map
    cfg.mime_map detect ab today dry (discover_files fs dl) fs i hi
  obtain ⟨p1, p2, p3, p4⟩ := processOne_stage cfg.keyword_map cfg.extension_map
    cfg.mime_map detect ab today dry fsi f (expand_path_ne_nil cfg.archive_base ab hab)
  exact ⟨f, _, hf, hact, p1, p2, p3, p4⟩

/-- Witness for C1 at a concrete mixed run: one keyword hit, one extension
hit, one fallback, in a dry run. -/
theorem C1_one_decision_fixed_precedence_witness :
    (Summary.mk ⟨3, 1, 1, 0, 1, 0⟩
      [⟨"extension", some "txt", "/dl/b.txt", "/docs/b.txt"⟩,
       ⟨"keyword", some "inv", "/dl/inv_a.pdf", "/inv/inv_a.pdf"⟩,
       ⟨"archive", some "archive_fallback", "/dl/README",
          "/Arch/2026-10-12/README"⟩]
      ⟨[["", "dl", "inv_a.pdf"], ["", "dl", "b.txt"], ["", "dl", "README"]],
       [["", "dl"], ["", "Arch"], ["", "docs"], ["", "inv"]]⟩).actions.length =
      (Summary.mk ⟨3, 1, 1, 0, 1, 0⟩
      [⟨"extension", some "txt", "/dl/b.txt", "/docs/b.txt"⟩,
       ⟨"keyword", some "inv", "/dl/inv_a.pdf", "/inv/inv_a.pdf"⟩,
       ⟨"archive", some "archive_fallback", "/dl/README",
          "/Arch/2026-10-12/README"⟩]
      ⟨[["", "dl", "inv_a.pdf"], ["", "dl", "b.txt"], ["", "dl", "README"]],
       [["", "dl"], ["", "Arch"], ["", "docs"], ["", "inv"]]⟩).counts.scanned :=
  (C1_one_decision_fixed_precedence
    ⟨"/dl", "/Arch", [("inv", KeywordRule.mk (some "/inv"))], [("txt", "/docs")], []⟩
    (fun _ => "") "2026-10-12" true
    ⟨[["", "dl", "inv_a.pdf"], ["", "dl", "b.txt"], ["", "dl", "README"]],
     [["", "dl"], ["", "Arch"], ["", "docs"], ["", "inv"]]⟩
    _ ["", "dl"] ["", "Arch"] (by decide) (by decide) (by decide)).1

/-- Claim C2: per-file exceptions (including a keyword rule lacking a
`target` field) become error-tagged decisions carrying the exception
message, the error counter matches the number of error-tagged decisions,
and processing continues (one action per scanned file). -/
theorem C2_error_boundary (cfg : Config) (detect : FsPath → String)
    (today : String) (dry : Bool) (fs : FS) (s : Summary) (dl ab : FsPath)
    (h : process_run cfg detect today dry fs = Except.ok s)
    (hdl : expand_path cfg.downloads = Except.ok dl)
    (hab : expand_path cfg.archive_base = Except.ok ab) :
    s.counts.errors =
      (s.actions.filter (fun a => a.stage == "error")).length ∧
    s.actions.length = s.counts.scanned ∧
    (∀ (fs2 : FS) (f : FsPath) (k : String),
      match_keyword (pathName f) cfg.keyword_map = some (k, none) → k ≠ "" →
      processOne cfg.keyword_map cfg.extension_map cfg.mime_map detect ab today dry fs2 f =
        ⟨0, 0, 0, 0, 1, fs2,
          errorAction f "Invalid path type (expected string): None"⟩) := by
  have heq := process_run_eq cfg detect today dry fs dl ab hdl hab
  rw [h] at heq
  have hs := Except.ok.inj heq
  subst hs
  refine ⟨runFiles_errors cfg.keyword_map cfg.extension_map cfg.mime_map detect ab today dry
    (discover_files fs dl) fs,
    runFiles_length cfg.keyword_map cfg.extension_map cfg.mime_map detect ab today dry
      (discover_files fs dl) fs, ?_⟩
  intro fs2 f k hmk hk
  exact processOne_eq_classify_err cfg.keyword_map cfg.extension_map cfg.mime_map detect
    ab today dry fs2 f _ (classifyFile_kw_err cfg.keyword_map cfg.extension_map
      cfg.mime_map detect ab today fs2 f k none _ hmk hk rfl)

/-- Witness for C2: a run over one file matched by a keyword rule whose
`target` field is missing yields one error-tagged decision and error
count 1. -/
theorem C2_error_boundary_witness :
    (Summary.mk ⟨1, 0, 0, 0, 0, 1⟩
      [⟨"error", none, "/dl/invoice.txt", "Invalid path type (expected string): None"⟩]
      ⟨[["", "dl", "invoice.txt"]], [["", "dl"], ["", "Arch"]]⟩).counts.errors =
    ((Summary.mk ⟨1, 0, 0, 0, 0, 1⟩
      [⟨"error", none, "/dl/invoice.txt", "Invalid path type (expected string): None"⟩]
      ⟨[["", "dl", "invoice.txt"]], [["", "dl"], ["", "Arch"]]⟩).actions.filter
        (fun a => a.stage == "error")).length :=
  (C2_error_boundary ⟨"/dl", "/Arch", [("inv", KeywordRule.mk none)], [], []⟩
    (fun _ => "") "2026-10-12" true
    ⟨[["", "dl", "invoice.txt"]], [["", "dl"], ["", "Arch"]]⟩
    _ ["", "dl"] ["", "Arch"] (by decide) (by decide) (by decide)).1

/-- Claim C5: a dry run never mutates the filesystem — the final
filesystem state equals the initial one — and every non-error decision
records a computed collision-safe destination, i.e. the rendering of a
path that does not exist in the (untouched) filesystem. -/
theorem C5_dry_run_no_mutation (cfg : Config) (detect : FsPath → String)
    (today : String) (fs : FS) (s : Summary)
    (h : process_run cfg detect today true fs = Except.ok s) :
    s.fs = fs ∧
    ∀ a ∈ s.actions, a.stage = "error" ∨
      ∃ dd nm, a.dest = pathStr (dd ++ [nm]) ∧ fs.existsPath (dd ++ [nm]) = false := by
  obtain ⟨dl, ab, hdl, hab⟩ := process_run_ok_expand cfg detect today true fs s h
  have heq := process_run_eq cfg detect today true fs dl ab hdl hab
  rw [h] at heq
  have hs := Except.ok.inj heq
  subst hs
  exact ⟨runFiles_dry_fs cfg.keyword_map cfg.extension_map cfg.mime_map detect ab today
      (discover_files fs dl) fs,
    runFiles_dry_dest cfg.keyword_map cfg.extension_map cfg.mime_map detect ab today
      (discover_files fs dl) fs⟩

/-- Witness for C5: after a concrete dry run over two files the
filesystem is unchanged. -/
theorem C5_dry_run_no_mutation_witness :
    (Summary.mk ⟨2, 0, 1, 0, 1, 0⟩
      [⟨"extension", some "txt", "/dl/b.txt", "/docs/b.txt"⟩,
       ⟨"archive", some "archive_fallback", "/dl/README", "/Arch/2026-10-12/README"⟩]
      ⟨[["", "dl", "b.txt"], ["", "dl", "README"]],
       [["", "dl"], ["", "Arch"], ["", "docs"]]⟩).fs =
    ⟨[["", "dl", "b.txt"], ["", "dl", "README"]],
     [["", "dl"], ["", "Arch"], ["", "docs"]]⟩ :=
  (C5_dry_run_no_mutation ⟨"/dl", "/Arch", [], [("txt", "/docs")], []⟩
    (fun _ => "") "2026-10-12"
    ⟨[["", "dl", "b.txt"], ["", "dl", "README"]],
     [["", "dl"], ["", "Arch"], ["", "docs"]]⟩
    _ (by decide)).1

/-- Claim C8: a file matching no keyword rule (none, or only via an empty
key), no extension rule and no content-type rule is tagged with the
archive fallback (rule slot holding the `archive_fallback` marker rather
than a matched rule key), its destination is the archive base joined with
the current date and the (collision-safe) filename, the archived counter
is incremented, and no exception is raised — even with no extension and
an empty detected content-type. -/
theorem C8_archive_fallback (kwMap : List (String × KeywordRule))
    (extMap mimeMap : List (String × String)) (detect : FsPath → String)
    (ab : FsPath) (today : String) (dry : Bool) (fs : FS) (file : FsPath)
    (hab : ab ≠ [])
    (hmk : match_keyword (pathName file) kwMap = none ∨
      ∃ t, match_keyword (pathName file) kwMap = some ("", t))
    (hme : match_extension (pathName file) extMap = none)
    (hmm : match_mime (detect file) mimeMap = none) :
    ∃ fs2, processOne kwMap extMap mimeMap detect ab today dry fs file =
      ⟨0, 0, 0, 1, 0, fs2,
        ⟨"archive", some "archive_fallback", pathStr file,
          pathStr (make_collision_safe_target fs (ab ++ [today]) (pathName file))⟩⟩ := by
  have hcl : classifyFile kwMap extMap mimeMap detect ab today fs file =
      Except.ok ("archive", "archive_fallback",
        make_collision_safe_target fs (ab ++ [today]) (pathName file)) := by
    rw [classifyFile_no_kw kwMap extMap mimeMap detect ab today fs file hmk]
    exact classifyNoKw_arch extMap mimeMap detect ab today fs file hme (Or.inl hmm)
  obtain ⟨nm, hnm⟩ := mcst_shape fs (ab ++ [today]) (pathName file)
  have hd : (make_collision_safe_target fs (ab ++ [today]) (pathName file)).dropLast =
      ab ++ [today] := by
    rw [hnm]
    exact List.dropLast_concat
  obtain ⟨fs2, hfin⟩ := finishFile_archive_ok ab today dry fs "archive"
    "archive_fallback" file _ hab hd
  exact ⟨fs2, processOne_eq_ok kwMap extMap mimeMap detect ab today dry fs file
    "archive" "archive_fallback" _ fs2 _ hcl hfin⟩

/-- Witness for C8: a file with no extension and empty detected
content-type falls through to the dated archive folder without error. -/
theorem C8_archive_fallback_witness :
    ∃ fs2, processOne [] [("txt", "/t")] [("image", "/i")] (fun _ => "")
        ["", "Arch"] "2026-10-12" true ⟨[["", "dl", "README"]], [["", "dl"]]⟩
        ["", "dl", "README"] =
      ⟨0, 0, 0, 1, 0, fs2,
        ⟨"archive", some "archive_fallback", pathStr [("" : String), "dl", "README"],
          pathStr (make_collision_safe_target ⟨[["", "dl", "README"]], [["", "dl"]]⟩
            (["", "Arch"] ++ ["2026-10-12"]) (pathName ["", "dl", "README"]))⟩⟩ :=
  C8_archive_fallback [] [("txt", "/t")] [("image", "/i")] (fun _ => "")
    ["", "Arch"] "2026-10-12" true ⟨[["", "dl", "README"]], [["", "dl"]]⟩
    ["", "dl", "README"] (by decide) (Or.inl (by decide)) (by decide) (by decide)

/-- Counterexample to claim C9 as stated: in this run one candidate file
is scanned (scanned = 1) but none of the keyword / extension / mime /
archived counters is incremented — classification itself raised (keyword
rule matched but its `target` field is missing), so only the error
counter moved, refuting "each candidate increments exactly one of the
four classification counters". -/
theorem C9_counterexample :
    process_run ⟨"/dl", "/Arch", [("inv", KeywordRule.mk none)], [], []⟩
        (fun _ => "") "2026-10-12" true
        ⟨[["", "dl", "invoice.txt"]], [["", "dl"], ["", "Arch"]]⟩ =
      Except.ok ⟨⟨1, 0, 0, 0, 0, 1⟩,
        [⟨"error", none, "/dl/invoice.txt", "Invalid path type (expected string): None"⟩],
        ⟨[["", "dl", "invoice.txt"]], [["", "dl"], ["", "Arch"]]⟩⟩ := by
  decide

/-- Claim C9 (amended): each candidate file increments at most one of the
keyword / extension / mime / archived counters — exactly one when its
classification completes (the error counter may additionally move if the
later move fails), and none (only the error counter) when classification
itself raises; consequently the classification total never exceeds the
scan count and classification total plus errors covers it. -/
theorem C9_counter_discipline (cfg : Config) (detect : FsPath → String)
    (today : String) (dry : Bool) (fs : FS) (s : Summary) (dl ab : FsPath)
    (h : process_run cfg detect today dry fs = Except.ok s)
    (hdl : expand_path cfg.downloads = Except.ok dl)
    (hab : expand_path cfg.archive_base = Except.ok ab) :
    s.counts.keyword + s.counts.extension + s.counts.mime + s.counts.archived ≤
      s.counts.scanned ∧
    s.counts.scanned ≤ s.counts.keyword + s.counts.extension + s.counts.mime +
      s.counts.archived + s.counts.errors ∧
    (∀ (fs2 : FS) (file : FsPath),
      ((processOne cfg.keyword_map cfg.extension_map cfg.mime_map detect ab today dry
          fs2 file).kw +
        (processOne cfg.keyword_map cfg.extension_map cfg.mime_map detect ab today dry
          fs2 file).ext +
        (processOne cfg.keyword_map cfg.extension_map cfg.mime_map detect ab today dry
          fs2 file).mime +
        (processOne cfg.keyword_map cfg.extension_map cfg.mime_map detect ab today dry
          fs2 file).arch = 1 ∧
        (processOne cfg.keyword_map cfg.extension_map cfg.mime_map detect ab today dry
          fs2 file).err ≤ 1) ∨
      ((processOne cfg.keyword_map cfg.extension_map cfg.mime_map detect ab today dry
          fs2 file).kw +
        (processOne cfg.keyword_map cfg.extension_map cfg.mime_map detect ab today dry
          fs2 file).ext +
        (processOne cfg.keyword_map cfg.extension_map cfg.mime_map detect ab today dry
          fs2 file).mime +
        (processOne cfg.keyword_map cfg.extension_map cfg.mime_map detect ab today dry
          fs2 file).arch = 0 ∧
        (processOne cfg.keyword_map cfg.extension_map cfg.mime_map detect ab today dry
          fs2 file).err = 1)) := by
  have heq := process_run_eq cfg detect today dry fs dl ab hdl hab
  rw [h] at heq
  have hs := Except.ok.inj heq
  subst hs
  obtain ⟨hb1, hb2⟩ := runFiles_bounds cfg.keyword_map cfg.extension_map cfg.mime_map
    detect ab today dry (discover_files fs dl) fs
  exact ⟨hb1, hb2, fun fs2 file => processOne_delta cfg.keyword_map cfg.extension_map
    cfg.mime_map detect ab today dry fs2 file⟩

/-- Witness for C9 (amended) at a concrete run with one classified file
and one classification failure. -/
theorem C9_counter_discipline_witness :
    (Summary.mk ⟨2, 0, 1, 0, 0, 1⟩
      [⟨"extension", some "txt", "/dl/b.txt", "/docs/b.txt"⟩,
       ⟨"error", none, "/dl/invoice.pdf", "Invalid path type (expected string): None"⟩]
      ⟨[["", "dl", "invoice.pdf"], ["", "dl", "b.txt"]],
       [["", "dl"], ["", "Arch"], ["", "docs"]]⟩).counts.keyword +
    (Summary.mk ⟨2, 0, 1, 0, 0, 1⟩
      [⟨"extension", some "txt", "/dl/b.txt", "/docs/b.txt"⟩,
       ⟨"error", none, "/dl/invoice.pdf", "Invalid path type (expected string): None"⟩]
      ⟨[["", "dl", "invoice.pdf"], ["", "dl", "b.txt"]],
       [["", "dl"], ["", "Arch"], ["", "docs"]]⟩).counts.extension +
    (Summary.mk ⟨2, 0, 1, 0, 0, 1⟩
      [⟨"extension", some "txt", "/dl/b.txt", "/docs/b.txt"⟩,
       ⟨"error", none, "/dl/invoice.pdf", "Invalid path type (expected string): None"⟩]
      ⟨[["", "dl", "invoice.pdf"], ["", "dl", "b.txt"]],
       [["", "dl"], ["", "Arch"], ["", "docs"]]⟩).counts.mime +
    (Summary.mk ⟨2, 0, 1, 0, 0, 1⟩
      [⟨"extension", some "txt", "/dl/b.txt", "/docs/b.txt"⟩,
       ⟨"error", none, "/dl/invoice.pdf", "Invalid path type (expected string): None"⟩]
      ⟨[["", "dl", "invoice.pdf"], ["", "dl", "b.txt"]],
       [["", "dl"], ["", "Arch"], ["", "docs"]]⟩).counts.archived ≤
    (Summary.mk ⟨2, 0, 1, 0, 0, 1⟩
      [⟨"extension", some "txt", "/dl/b.txt", "/docs/b.txt"⟩,
       ⟨"error", none, "/dl/invoice.pdf", "Invalid path type (expected string): None"⟩]
      ⟨[["", "dl", "invoice.pdf"], ["", "dl", "b.txt"]],
       [["", "dl"], ["", "Arch"], ["", "docs"]]⟩).counts.scanned :=
  (C9_counter_discipline
    ⟨"/dl", "/Arch", [("inv", KeywordRule.mk none)], [("txt", "/docs")], []⟩
    (fun _ => "") "2026-10-12" true
    ⟨[["", "dl", "invoice.pdf"], ["", "dl", "b.txt"]],
     [["", "dl"], ["", "Arch"], ["", "docs"]]⟩
    _ ["", "dl"] ["", "Arch"] (by decide) (by decide) (by decide)).1

/-- Counterexample to claim C4 as stated: in execute mode the extension
target `/Archive2` does not live under the archive root `/Arch` (no
path containment) and its parent directory does not exist, yet the run
reports no error: the parent is auto-created and the move performed,
because the code compares rendered path strings with `startswith` and
`"/Archive2"` textually starts with `"/Arch"`. -/
theorem C4_counterexample :
    underDir (splitPath "/Arch") ["", "Archive2"] = false ∧
    FS.existsPath ⟨[["", "dl", "invoice.txt"]], [["", "dl"], ["", "Arch"]]⟩
      ["", "Archive2"] = false ∧
    process_run ⟨"/dl", "/Arch", [], [("txt", "/Archive2")], []⟩
        (fun _ => "") "2026-10-12" false
        ⟨[["", "dl", "invoice.txt"]], [["", "dl"], ["", "Arch"]]⟩ =
      Except.ok ⟨⟨1, 0, 1, 0, 0, 0⟩,
        [⟨"extension", some "txt", "/dl/invoice.txt", "/Archive2/invoice.txt"⟩],
        ⟨[["", "Archive2", "invoice.txt"]],
         [[""], ["", "Archive2"], [""], ["", "Archive2"], ["", "dl"], ["", "Arch"]]⟩⟩ := by
  refine ⟨by decide, by decide, ?_⟩
  decide

/-- Claim C4 (amended): in execute mode, when a classified destination's
parent directory does not exist, the parent is auto-created (and the
move performed) if and only if the rendered parent path string starts
with the rendered archive base path string; otherwise processing of that
file fails with the missing-destination-parent `RuntimeError`, recovered
per-file as an error-tagged decision with the filesystem untouched. -/
theorem C4_parent_creation_policy (kwMap : List (String × KeywordRule))
    (extMap mimeMap : List (String × String)) (detect : FsPath → String)
    (ab : FsPath) (today : String) (fs : FS) (file : FsPath)
    (st k : String) (d : FsPath)
    (hcl : classifyFile kwMap extMap mimeMap detect ab today fs file = Except.ok (st, k, d))
    (hpar : fs.existsPath d.dropLast = false) :
    (strStarts (pathStr d.dropLast) (pathStr ab) = true →
      processOne kwMap extMap mimeMap detect ab today false fs file =
        ⟨(deltaFor st).1, (deltaFor st).2.1, (deltaFor st).2.2.1, (deltaFor st).2.2.2, 0,
          (do_move (fs.mkdirParents d.dropLast) file d).1,
          ⟨st, some k, pathStr file, pathStr d⟩⟩) ∧
    (strStarts (pathStr d.dropLast) (pathStr ab) = false →
      processOne kwMap extMap mimeMap detect ab today false fs file =
        ⟨(deltaFor st).1, (deltaFor st).2.1, (deltaFor st).2.2.1, (deltaFor st).2.2.2, 1,
          fs, errorAction file
            ("Destination parent does not exist for non-archive target: " ++
              pathStr d.dropLast)⟩) := by
  constructor
  · intro hs
    exact processOne_eq_ok kwMap extMap mimeMap detect ab today false fs file
      st k d _ _ hcl (finishFile_exec_mkdir ab fs st k file d hpar hs)
  · intro hs
    exact processOne_eq_finish_err kwMap extMap mimeMap detect ab today false fs file
      st k d _ hcl (finishFile_exec_err ab fs st k file d hpar hs)

/-- Witness for C4 (amended): a non-archive extension target `/docs`
whose parent is missing produces the per-file `RuntimeError` decision. -/
theorem C4_parent_creation_policy_witness :
    processOne [] [("txt", "/docs")] [] (fun _ => "") ["", "Arch"] "2026-10-12" false
        ⟨[["", "dl", "a.txt"]], [["", "dl"], ["", "Arch"]]⟩ ["", "dl", "a.txt"] =
      ⟨(deltaFor "extension").1, (deltaFor "extension").2.1, (deltaFor "extension").2.2.1,
        (deltaFor "extension").2.2.2, 1,
        ⟨[["", "dl", "a.txt"]], [["", "dl"], ["", "Arch"]]⟩,
        errorAction ["", "dl", "a.txt"]
          ("Destination parent does not exist for non-archive target: " ++
            pathStr (["", "docs", "a.txt"] : FsPath).dropLast)⟩ :=
  (C4_parent_creation_policy [] [("txt", "/docs")] [] (fun _ => "") ["", "Arch"]
    "2026-10-12" ⟨[["", "dl", "a.txt"]], [["", "dl"], ["", "Arch"]]⟩ ["", "dl", "a.txt"]
    "extension" "txt" ["", "docs", "a.txt"] (by decide) (by decide)).2 (by decide)

end Cleanup
